import Mathlib

/-!
Verification of the hierarchical category management engine of the
stockwise inventory backend (`src/server/services` CategoryService).

The data model and every operation below are shallow embeddings of the
TypeScript source: the relational store is a pair of lists of rows, the
drizzle queries become list lookups/filters, and the two iterative
ancestor walks (path resolver and cycle guard) are given an explicit
iteration budget; exhausting the budget models the source loop running
forever and is reported as a distinguished marker that, as proved below,
never occurs on acyclic stores.
-/

/-- A row of the `categories` table.  (`createdAt`/`updatedAt` timestamps
carry no information used by any operation's control flow and are omitted
from the embedding.) -/
structure Cat where
  id : Nat
  tenantId : Nat
  name : String
  description : Option String
  parentId : Option Nat
  deriving Repr, DecidableEq

/-- The slice of a `products` row consulted by the category engine:
`productCount` queries join on `categoryId` and `deletedAt is null`. -/
structure Product where
  id : Nat
  tenantId : Nat
  categoryId : Option Nat
  deleted : Bool
  deriving Repr, DecidableEq

/-- The relational store: category rows, product rows, and the serial-id
counter used by inserts. -/
structure Store where
  cats : List Cat
  products : List Product
  nextId : Nat
  deriving Repr, DecidableEq

/-- Error kinds thrown by the service, one per distinct `throw new Error`
site.  `diverge` is not a source error: it marks that the source's
unbounded `while` loop would not terminate (see `wcrLoop`/`pathLoop`). -/
inductive Err where
  | parentNotFound
  | circularRef
  | duplicateName
  | notFound
  | selfParent
  | updateFailed
  | conflictProducts (n : Nat)
  | conflictChildren (n : Nat)
  | diverge
  deriving Repr, DecidableEq

/-- The human-readable message attached to each error, copied from the
source's `Error` constructor arguments. -/
def Err.message : Err → String
  | .parentNotFound => "Parent category not found or does not belong to your organization"
  | .circularRef => "Cannot create circular category reference"
  | .duplicateName => "Category with this name already exists at this level"
  | .notFound => "Category not found"
  | .selfParent => "Category cannot be its own parent"
  | .updateFailed => "Failed to update category"
  | .conflictProducts n =>
      "Cannot delete category with " ++ toString n ++ " products. Move or delete products first."
  | .conflictChildren n =>
      "Cannot delete category with " ++ toString n ++ " subcategories. Delete subcategories first."
  | .diverge => "(the source loop does not terminate)"

/-- `CreateCategoryInput`. -/
structure CreateCategoryInput where
  name : String
  description : Option String
  parentId : Option Nat
  deriving Repr, DecidableEq

/-- `UpdateCategoryInput`: each field may be absent (`none`); `parentId`
may also be explicitly `null` (`some none`). -/
structure UpdateCategoryInput where
  name : Option String
  description : Option String
  parentId : Option (Option Nat)
  deriving Repr, DecidableEq

/-- JavaScript truthiness of a `number | null | undefined` value:
`null`/`undefined` and `0` are falsy. -/
def jsTruthy : Option Nat → Bool
  | none => false
  | some n => n != 0

/-- JavaScript `x || null` on a `number | null | undefined` value, as used
by `parent?.parentId || null` in the cycle guard: `0` collapses to `null`. -/
def jsOrNull : Option Nat → Option Nat
  | none => none
  | some n => if n == 0 then none else some n

/-- Lexicographic comparison of character lists (the collation used to
model SQL `order by name`); kept computable so concrete stores evaluate. -/
def charsLe : List Char → List Char → Bool
  | [], _ => true
  | _ :: _, [] => false
  | a :: as, b :: bs => if a = b then charsLe as bs else decide (a < b)

/-- Name comparison on strings. -/
def strLe (a b : String) : Prop := charsLe a.toList b.toList = true

instance : DecidableRel strLe := fun a b => inferInstanceAs (Decidable (_ = true))

theorem charsLe_total : ∀ as bs : List Char, charsLe as bs = true ∨ charsLe bs as = true := by
  intro as
  induction as with
  | nil => intro bs; left; rfl
  | cons a as ih =>
      intro bs
      cases bs with
      | nil => right; rfl
      | cons b bs =>
          by_cases hab : a = b
          · subst hab
            rcases ih bs with h | h
            · left; simpa [charsLe] using h
            · right; simpa [charsLe] using h
          · rcases lt_trichotomy a b with h | h | h
            · left; simp [charsLe, hab, h]
            · exact absurd h hab
            · have hba : ¬ b = a := fun hh => hab hh.symm
              right; simp [charsLe, hba, h]

theorem charsLe_trans : ∀ as bs cs : List Char,
    charsLe as bs = true → charsLe bs cs = true → charsLe as cs = true := by
  intro as
  induction as with
  | nil => intro bs cs _ _; rfl
  | cons a as ih =>
      intro bs cs h1 h2
      cases bs with
      | nil => simp [charsLe] at h1
      | cons b bs =>
          cases cs with
          | nil => simp [charsLe] at h2
          | cons c cs =>
              by_cases hab : a = b <;> by_cases hbc : b = c
              · subst hab; subst hbc
                simp only [charsLe, if_pos rfl] at h1 h2 ⊢
                exact ih bs cs h1 h2
              · subst hab
                simp only [charsLe, if_pos rfl] at h1
                simp only [charsLe, if_neg hbc, decide_eq_true_eq] at h2
                have hac : ¬ a = c := fun h => hbc h
                simp [charsLe, hac, h2]
              · subst hbc
                simp only [charsLe, if_neg hab, decide_eq_true_eq] at h1
                have hac : ¬ a = b := hab
                simp [charsLe, hac, h1]
              · simp only [charsLe, if_neg hab, decide_eq_true_eq] at h1
                simp only [charsLe, if_neg hbc, decide_eq_true_eq] at h2
                have hlt : a < c := lt_trans h1 h2
                have hac : ¬ a = c := ne_of_lt hlt
                simp [charsLe, hac, hlt]

/-- Name order on category rows. -/
def nameLe (a b : Cat) : Prop := strLe a.name b.name

instance : DecidableRel nameLe := fun a b => inferInstanceAs (Decidable (strLe a.name b.name))

instance : IsTotal Cat nameLe := ⟨fun a b => charsLe_total a.name.toList b.name.toList⟩

instance : IsTrans Cat nameLe :=
  ⟨fun _ _ _ h h' => charsLe_trans _ _ _ h h'⟩

/-- `order by categories.name` over category rows (a stable sort). -/
def sortByName (l : List Cat) : List Cat := List.insertionSort nameLe l

/-- `count(products.id)` under the left join on
`products.categoryId = categories.id and products.deletedAt is null`
(note: the join carries no tenant condition, exactly as in the source). -/
def countProducts (ps : List Product) (catId : Nat) : Nat :=
  (ps.filter (fun p => p.categoryId == some catId && !p.deleted)).length

/-- Case-insensitive substring test modelling `ilike '%search%'`. -/
def leadMatch : List Char → List Char → Bool
  | [], _ => true
  | _ :: _, [] => false
  | a :: as, b :: bs => a == b && leadMatch as bs

/-- Substring occurrence over character lists. -/
def subMatch (pat : List Char) : List Char → Bool
  | [] => pat.isEmpty
  | c :: rest => leadMatch pat (c :: rest) || subMatch pat rest

/-- ASCII lower-casing of one character (the collation-relevant fragment
of SQL `lower`). -/
def lcChar (c : Char) : Char :=
  if 'A' ≤ c && c ≤ 'Z' then Char.ofNat (c.toNat + 32) else c

/-- `ilike(categories.name, '%' + search + '%')`. -/
def ilikeContains (name pat : String) : Bool :=
  subMatch (pat.toList.map lcChar) (name.toList.map lcChar)

/-- `createCategory`: validates the parent (when truthy), runs the
creation-time circular check (`checkCircularReference`), checks sibling
name uniqueness, then inserts. -/
def checkCircularReference (_parentId _tenantId : Nat) : Bool :=
  false

def createCategory (s : Store) (data : CreateCategoryInput) (tenantId : Nat) :
    Except Err Cat × Store :=
  let parentStep : Except Err Unit :=
    if jsTruthy data.parentId then
      match s.cats.find? (fun c => c.id == data.parentId.getD 0 && c.tenantId == tenantId) with
      | none => .error .parentNotFound
      | some _ =>
          if checkCircularReference (data.parentId.getD 0) tenantId then .error .circularRef
          else .ok ()
    else .ok ()
  match parentStep with
  | .error e => (.error e, s)
  | .ok () =>
    match s.cats.find? (fun c =>
        c.name == data.name && c.tenantId == tenantId &&
        (if jsTruthy data.parentId then c.parentId == data.parentId
         else c.parentId == none)) with
    | some _ => (.error .duplicateName, s)
    | none =>
        let cat : Cat :=
          { id := s.nextId, tenantId := tenantId, name := data.name,
            description := data.description, parentId := data.parentId }
        (.ok cat, { s with cats := s.cats ++ [cat], nextId := s.nextId + 1 })

/-- Query filters of `getCategories` (flat list). -/
structure ListFilters where
  search : Option String
  parentId : Option (Option Nat)
  deriving Repr, DecidableEq

/-- An entry of the flat list returned by `getCategories`. -/
structure CatListItem where
  id : Nat
  name : String
  description : Option String
  parentId : Option Nat
  productCount : Nat
  deriving Repr, DecidableEq

/-- The `conditions` array of `getCategories`, combined with `and(...)`:
tenant filter, optional truthy `ilike` search, optional parent filter
(`null` meaning roots only). -/
def listConds (tenantId : Nat) (filters : ListFilters) (c : Cat) : Bool :=
  c.tenantId == tenantId
  && (match filters.search with
      | some pat => if pat != "" then ilikeContains c.name pat else true
      | none => true)
  && (match filters.parentId with
      | none => true
      | some none => c.parentId == none
      | some (some p) => c.parentId == some p)

/-- The flat-list projection of one row, with its product count. -/
def toCatListItem (s : Store) (c : Cat) : CatListItem :=
  { id := c.id, name := c.name, description := c.description,
    parentId := c.parentId, productCount := countProducts s.products c.id }

/-- `getCategories`: the combined conditions, ordered by name, each row
annotated with its product count. -/
def getCategories (s : Store) (tenantId : Nat) (filters : ListFilters) : List CatListItem :=
  (sortByName (s.cats.filter (listConds tenantId filters))).map (toCatListItem s)

/-- A node of the materialized category tree (`CategoryTreeNode`); the
`children` field is always present. -/
inductive TreeNode where
  | mk (id : Nat) (name : String) (description : Option String) (parentId : Option Nat)
      (productCount : Nat) (children : List TreeNode)
  deriving Repr

def TreeNode.id : TreeNode → Nat
  | .mk i _ _ _ _ _ => i

def TreeNode.name : TreeNode → String
  | .mk _ n _ _ _ _ => n

def TreeNode.children : TreeNode → List TreeNode
  | .mk _ _ _ _ _ cs => cs

/-- A flat category row annotated with its product count: the input shape
of `buildTree`. -/
structure CatRow where
  id : Nat
  name : String
  description : Option String
  parentId : Option Nat
  productCount : Nat
  deriving Repr, DecidableEq

/-- `buildTree`: one pass over the full flat list collects the rows whose
`parentId` equals the current `parentId` argument and recursively builds
each one's children by re-scanning the same full list.  The source
recursion is bounded only by the ancestor structure; `fuel` counts the
remaining recursion depth (the caller passes `rows.length + 1`, which is
proved sufficient on acyclic inputs). -/
def buildTree (rows : List CatRow) : Nat → Option Nat → List TreeNode
  | 0, _ => []
  | fuel + 1, parentId =>
      (rows.filter (fun r => r.parentId == parentId)).map (fun r =>
        .mk r.id r.name r.description r.parentId r.productCount
          (buildTree rows fuel (some r.id)))

/-- The flat tenant list fed to `buildTree` by `getCategoryTree`:
tenant-filtered, product-count annotated, ordered by name. -/
def treeRows (s : Store) (tenantId : Nat) : List CatRow :=
  (sortByName (s.cats.filter (fun c => c.tenantId == tenantId))).map (fun c =>
    { id := c.id, name := c.name, description := c.description,
      parentId := c.parentId, productCount := countProducts s.products c.id })

/-- `getCategoryTree`. -/
def getCategoryTree (s : Store) (tenantId : Nat) : List TreeNode :=
  buildTree (treeRows s tenantId) ((treeRows s tenantId).length + 1) none

/-- `{id, name}` projection used for path entries and child summaries. -/
structure PathNode where
  id : Nat
  name : String
  deriving Repr, DecidableEq

/-- The augmented record returned by `getCategoryById`. -/
structure CategoryDetails where
  id : Nat
  name : String
  description : Option String
  parentId : Option Nat
  productCount : Nat
  parentName : Option String
  children : List PathNode
  deriving Repr, DecidableEq

/-- `getCategoryById`: the main lookup filters by id and tenant; the
`parentName` lookup and the `children` query filter by id only (no tenant
condition), exactly as in the source. -/
def getCategoryById (s : Store) (id tenantId : Nat) : Except Err CategoryDetails :=
  match s.cats.find? (fun c => c.id == id && c.tenantId == tenantId) with
  | none => .error .notFound
  | some c =>
      let parentName : Option String :=
        if jsTruthy c.parentId then
          match s.cats.find? (fun d => d.id == c.parentId.getD 0) with
          | some p => if p.name == "" then none else some p.name
          | none => none
        else none
      let children : List PathNode :=
        (sortByName (s.cats.filter (fun d => d.parentId == some id))).map
          (fun d => { id := d.id, name := d.name })
      .ok { id := c.id, name := c.name, description := c.description,
            parentId := c.parentId, productCount := countProducts s.products c.id,
            parentName := parentName, children := children }

/-- The `while` loop of `getCategoryPath`: fetch the cursor's row
(id + tenant), stop on a miss, otherwise prepend `{id, name}` and walk to
the row's `parentId`.  `fuel` bounds the number of loop iterations; the
`.error ()` result marks that the source loop would keep running. -/
def pathLoop (cats : List Cat) (tenantId : Nat) :
    Option Nat → Nat → List PathNode → Except Unit (List PathNode)
  | none, _, path => .ok path
  | some currentId, fuel, path =>
      match cats.find? (fun c => c.id == currentId && c.tenantId == tenantId) with
      | none => .ok path
      | some c =>
          match fuel with
          | 0 => .error ()
          | fuel + 1 => pathLoop cats tenantId c.parentId fuel ({ id := c.id, name := c.name } :: path)

/-- `getCategoryPath` (breadcrumb, root first). -/
def getCategoryPath (s : Store) (id tenantId : Nat) : Except Unit (List PathNode) :=
  pathLoop s.cats tenantId (some id) (s.cats.length + 1) []

/-- The `while` loop of `wouldCreateCircularReference`: walk upward from
the proposed parent; report a cycle when the walk reaches `categoryId`;
the next cursor is `parent?.parentId || null`. -/
def wcrLoop (cats : List Cat) (categoryId tenantId : Nat) :
    Option Nat → Nat → Except Unit Bool
  | none, _ => .ok false
  | some currentId, fuel =>
      if currentId == categoryId then .ok true
      else
        match fuel with
        | 0 => .error ()
        | fuel + 1 =>
            wcrLoop cats categoryId tenantId
              (match cats.find? (fun c => c.id == currentId && c.tenantId == tenantId) with
               | some c => jsOrNull c.parentId
               | none => none) fuel

/-- `wouldCreateCircularReference`. -/
def wouldCreateCircularReference (s : Store) (categoryId newParentId tenantId : Nat) :
    Except Unit Bool :=
  wcrLoop s.cats categoryId tenantId (some newParentId) (s.cats.length + 1)

/-- Field application of the SQL `update ... set` built from the patch
(absent fields are not touched). -/
def applyPatch (c : Cat) (data : UpdateCategoryInput) : Cat :=
  { c with
    name := data.name.getD c.name,
    description := match data.description with | some d => some d | none => c.description,
    parentId := match data.parentId with | some v => v | none => c.parentId }

/-- `updateCategory`: existence check, parent validation (self-parent,
parent existence, cycle guard), conditional sibling-name check (only when
a truthy `name` differing from the current one is supplied), then the
update write returning the refreshed row. -/
def updateCategory (s : Store) (id : Nat) (data : UpdateCategoryInput) (tenantId : Nat) :
    Except Err Cat × Store :=
  match getCategoryById s id tenantId with
  | .error e => (.error e, s)
  | .ok existingCategory =>
    let parentStep : Except Err Unit :=
      match data.parentId with
      | none => .ok ()
      | some none => .ok ()
      | some (some p) =>
          if p == id then .error .selfParent
          else
            match s.cats.find? (fun c => c.id == p && c.tenantId == tenantId) with
            | none => .error .parentNotFound
            | some _ =>
                match wouldCreateCircularReference s id p tenantId with
                | .error () => .error .diverge
                | .ok true => .error .circularRef
                | .ok false => .ok ()
    match parentStep with
    | .error e => (.error e, s)
    | .ok () =>
      let nameStep : Except Err Unit :=
        match data.name with
        | none => .ok ()
        | some n =>
            if n != "" && n != existingCategory.name then
              let targetParentId : Option Nat :=
                match data.parentId with
                | some v => v
                | none => existingCategory.parentId
              match s.cats.find? (fun c =>
                  c.name == n && c.tenantId == tenantId &&
                  (if jsTruthy targetParentId then c.parentId == targetParentId
                   else c.parentId == none) &&
                  c.id != id) with
              | some _ => .error .duplicateName
              | none => .ok ()
            else .ok ()
      match nameStep with
      | .error e => (.error e, s)
      | .ok () =>
          let cats' := s.cats.map (fun c =>
            if c.id == id && c.tenantId == tenantId then applyPatch c data else c)
          match cats'.find? (fun c => c.id == id && c.tenantId == tenantId) with
          | some c => (.ok c, { s with cats := cats' })
          | none => (.error .updateFailed, { s with cats := cats' })

/-- `moveCategory` is `updateCategory` touching only `parentId`. -/
def moveCategory (s : Store) (id : Nat) (newParentId : Option Nat) (tenantId : Nat) :
    Except Err Cat × Store :=
  updateCategory s id { name := none, description := none, parentId := some newParentId } tenantId

/-- The `{id, name}` tombstone returned by `deleteCategory`. -/
structure DeleteResult where
  id : Nat
  name : String
  deriving Repr, DecidableEq

/-- `deleteCategory`: existence check, product-count gate, children gate,
then the delete write. -/
def deleteCategory (s : Store) (id tenantId : Nat) : Except Err DeleteResult × Store :=
  match getCategoryById s id tenantId with
  | .error e => (.error e, s)
  | .ok category =>
      if 0 < category.productCount then
        (.error (.conflictProducts category.productCount), s)
      else if 0 < category.children.length then
        (.error (.conflictChildren category.children.length), s)
      else
        (.ok { id := id, name := category.name },
         { s with cats := s.cats.filter (fun c => !(c.id == id && c.tenantId == tenantId)) })

/-! ### Generic theory of rows with a parent pointer

Both the cycle guard / path resolver (over `Cat` rows) and the tree
builder (over `CatRow` rows) walk a parent-pointer structure.  The facts
about such walks are developed once, parametrised by the projections. -/

set_option linter.unusedSectionVars false

section ForestTheory

variable {α : Type} [DecidableEq α]
variable (ident : α → Nat) (par : α → Option Nat)

def RankOK (l : List α) (D : Nat → Nat) : Prop :=
  ∀ r ∈ l, match par r with
    | none => D (ident r) = 0
    | some p => ∃ rp ∈ l, ident rp = p ∧ D (ident r) = D (ident rp) + 1

def ForestOK (l : List α) : Prop :=
  (l.map ident).Nodup ∧ ∃ D : Nat → Nat, RankOK ident par l D

def ancAt (l : List α) : Nat → α → Option (Option Nat)
  | 0, r => some (par r)
  | d + 1, r =>
      (par r).bind (fun p =>
        (l.find? (fun x => ident x == p)).bind (fun rp => ancAt l d rp))

def Reach (l : List α) (r : α) (pid : Option Nat) : Prop :=
  ∃ d, ancAt ident par l d r = some pid

end ForestTheory

theorem find_unique {α : Type} {p : α → Bool} {l : List α} {a : α}
    (ha : a ∈ l) (hpa : p a = true) (hu : ∀ b ∈ l, p b = true → b = a) :
    l.find? p = some a := by
  induction l with
  | nil => cases ha
  | cons x xs ih =>
      by_cases hx : p x = true
      · have : x = a := hu x (List.mem_cons_self x xs) hx
        subst this
        simp [List.find?_cons, hx]
      · have hxa : x ≠ a := fun h => hx (h ▸ hpa)
        have ha' : a ∈ xs := by
          rcases List.mem_cons.mp ha with h | h
          · exact absurd h.symm hxa
          · exact h
        have := ih ha' (fun b hb hpb => hu b (List.mem_cons_of_mem _ hb) hpb)
        simpa [List.find?_cons, Bool.of_not_eq_true hx] using this

/-- Searching with a conjunction of predicates is searching the
pre-filtered list (models adding a SQL `where` clause). -/
theorem find_and_filter {α : Type} (p q : α → Bool) (l : List α) :
    l.find? (fun x => p x && q x) = (l.filter q).find? p := by
  induction l with
  | nil => rfl
  | cons x xs ih =>
      cases hq : q x <;> cases hp : p x <;>
        simp [List.find?_cons, List.filter_cons, hp, hq, ih]

section ForestLemmas

variable {α : Type} [DecidableEq α]
variable {ident : α → Nat} {par : α → Option Nat}
variable {l : List α} {D : Nat → Nat}

theorem ident_inj (hN : (l.map ident).Nodup) {a b : α}
    (ha : a ∈ l) (hb : b ∈ l) (h : ident a = ident b) : a = b :=
  List.inj_on_of_nodup_map hN ha hb h

theorem find_ident (hN : (l.map ident).Nodup) {rp : α} {p : Nat}
    (hm : rp ∈ l) (hid : ident rp = p) :
    l.find? (fun x => ident x == p) = some rp := by
  refine find_unique hm (by simp [hid]) ?_
  intro b hb hpb
  exact ident_inj hN hb hm (by rw [hid]; simpa using hpb)

/-- Destructing one step of `ancAt`. -/
theorem ancAt_succ_inv {r : α} {d : Nat} {pid : Option Nat}
    (h : ancAt ident par l (d + 1) r = some pid) :
    ∃ p rp, par r = some p ∧ l.find? (fun x => ident x == p) = some rp ∧
      ancAt ident par l d rp = some pid := by
  unfold ancAt at h
  rcases hpar : par r with _ | p
  · rw [hpar] at h; cases h
  · rw [hpar] at h
    simp only [Option.some_bind] at h
    rcases hfind : l.find? (fun x => ident x == p) with _ | rp
    · simp [hfind] at h
    · rw [hfind] at h
      simp only [Option.some_bind] at h
      exact ⟨p, rp, rfl, hfind, h⟩

theorem ancAt_rank (hN : (l.map ident).Nodup) (hD : RankOK ident par l D) :
    ∀ d, ∀ r ∈ l,
      (ancAt ident par l d r = some none → D (ident r) = d) ∧
      (∀ q, ancAt ident par l d r = some (some q) →
        ∃ rq ∈ l, ident rq = q ∧ D (ident r) = D (ident rq) + d + 1) := by
  intro d
  induction d with
  | zero =>
      intro r hr
      constructor
      · intro h
        have hpar : par r = none := by simpa [ancAt] using h
        have := hD r hr
        rw [hpar] at this
        exact this
      · intro q h
        have hpar : par r = some q := by simpa [ancAt] using h
        have := hD r hr
        rw [hpar] at this
        obtain ⟨rq, hrq, hq, hrank⟩ := this
        exact ⟨rq, hrq, hq, by omega⟩
  | succ d ih =>
      intro r hr
      have rank_step : ∀ p rp, par r = some p →
          l.find? (fun x => ident x == p) = some rp →
          rp ∈ l ∧ D (ident r) = D (ident rp) + 1 := by
        intro p rp hpar hfind
        have hrp : rp ∈ l := List.mem_of_find?_eq_some hfind
        have hidp : ident rp = p := by simpa using List.find?_some hfind
        have := hD r hr
        rw [hpar] at this
        obtain ⟨rp', hrp', hid', hrank⟩ := this
        have heq : rp' = rp := ident_inj hN hrp' hrp (hid'.trans hidp.symm)
        subst heq
        exact ⟨hrp, hrank⟩
      constructor
      · intro h
        obtain ⟨p, rp, hpar, hfind, hrec⟩ := ancAt_succ_inv h
        obtain ⟨hrp, hrank⟩ := rank_step p rp hpar hfind
        have := (ih rp hrp).1 hrec
        omega
      · intro q h
        obtain ⟨p, rp, hpar, hfind, hrec⟩ := ancAt_succ_inv h
        obtain ⟨hrp, hrank⟩ := rank_step p rp hpar hfind
        obtain ⟨rq, hrq, hq, hrk⟩ := (ih rp hrp).2 q hrec
        exact ⟨rq, hrq, hq, by omega⟩

theorem ancAt_total (hN : (l.map ident).Nodup) (hD : RankOK ident par l D) :
    ∀ r ∈ l, ancAt ident par l (D (ident r)) r = some none := by
  suffices h : ∀ n, ∀ r ∈ l, D (ident r) = n → ancAt ident par l n r = some none by
    intro r hr; exact h _ r hr rfl
  intro n
  induction n using Nat.strong_induction_on with
  | _ n ih =>
      intro r hr hn
      have := hD r hr
      rcases hpar : par r with _ | p
      · rw [hpar] at this
        have h0 : n = 0 := by omega
        subst h0
        simp [ancAt, hpar]
      · rw [hpar] at this
        obtain ⟨rp, hrp, hid, hrank⟩ := this
        have hfind := find_ident hN hrp hid
        have hlt : D (ident rp) < n := by omega
        have hstep := ih _ hlt rp hrp rfl
        have hsucc : n = D (ident rp) + 1 := by omega
        subst hsucc
        unfold ancAt
        rw [hpar]
        simp only [Option.some_bind, hfind]
        exact hstep

theorem ancAt_unique (hN : (l.map ident).Nodup) (hD : RankOK ident par l D)
    {r : α} (hr : r ∈ l) {pid : Option Nat} {d d' : Nat}
    (h : ancAt ident par l d r = some pid) (h' : ancAt ident par l d' r = some pid) :
    d = d' := by
  rcases pid with _ | q
  · have h1 := (ancAt_rank hN hD d r hr).1 h
    have h2 := (ancAt_rank hN hD d' r hr).1 h'
    omega
  · obtain ⟨rq, hrq, hq, hk⟩ := (ancAt_rank hN hD d r hr).2 q h
    obtain ⟨rq', hrq', hq', hk'⟩ := (ancAt_rank hN hD d' r hr).2 q h'
    have heq : rq' = rq := ident_inj hN hrq' hrq (hq'.trans hq.symm)
    subst heq
    omega

theorem ancAt_extend (hN : (l.map ident).Nodup)
    {r rq : α} {q : Nat} (hrq : rq ∈ l) (hq : ident rq = q) :
    ∀ d, ancAt ident par l d r = some (some q) →
      ancAt ident par l (d + 1) r = some (par rq) := by
  intro d
  induction d generalizing r with
  | zero =>
      intro h
      have hpar : par r = some q := by simpa [ancAt] using h
      unfold ancAt
      rw [hpar]
      simp only [Option.some_bind, find_ident hN hrq hq]
      rfl
  | succ d ih =>
      intro h
      obtain ⟨p, rp, hpar, hfind, hrec⟩ := ancAt_succ_inv h
      have step := ih hrec
      show ancAt ident par l (d + 1 + 1) r = some (par rq)
      unfold ancAt
      rw [hpar]
      simp only [Option.some_bind, hfind]
      exact step

theorem ancAt_last {r : α} {pid : Option Nat} :
    ∀ d, ancAt ident par l (d + 1) r = some pid →
      ∃ c ∈ l, par c = pid ∧ ancAt ident par l d r = some (some (ident c)) := by
  intro d
  induction d generalizing r with
  | zero =>
      intro h
      obtain ⟨p, rp, hpar, hfind, hrec⟩ := ancAt_succ_inv h
      have hrp : rp ∈ l := List.mem_of_find?_eq_some hfind
      have hidp : ident rp = p := by simpa using List.find?_some hfind
      have hparrp : par rp = pid := by simpa [ancAt] using hrec
      exact ⟨rp, hrp, hparrp, by simp [ancAt, hpar, hidp]⟩
  | succ d ih =>
      intro h
      obtain ⟨p, rp, hpar, hfind, hrec⟩ := ancAt_succ_inv h
      obtain ⟨c, hc, hcp, hrec'⟩ := ih hrec
      refine ⟨c, hc, hcp, ?_⟩
      show ancAt ident par l (d + 1) r = some (some (ident c))
      unfold ancAt
      rw [hpar]
      simp only [Option.some_bind, hfind]
      exact hrec'

theorem rank_lt_length (hN : (l.map ident).Nodup) (hD : RankOK ident par l D) :
    ∀ r ∈ l, D (ident r) < l.length := by
  have chain : ∀ n, ∀ r ∈ l, D (ident r) = n →
      ∃ ch : List α, (∀ x ∈ ch, x ∈ l) ∧
        ch.map (fun x => D (ident x)) = (List.range (n + 1)).reverse := by
    intro n
    induction n using Nat.strong_induction_on with
    | _ n ih =>
        intro r hr hn
        have := hD r hr
        rcases hpar : par r with _ | p
        · rw [hpar] at this
          have h0 : n = 0 := by omega
          subst h0
          refine ⟨[r], by simp [hr], ?_⟩
          have : List.range 1 = [0] := rfl
          simp [hn, this]
        · rw [hpar] at this
          obtain ⟨rp, hrp, hid, hrank⟩ := this
          have hlt : D (ident rp) < n := by omega
          obtain ⟨ch, hch, hmap⟩ := ih _ hlt rp hrp rfl
          refine ⟨r :: ch, ?_, ?_⟩
          · intro x hx
            rcases List.mem_cons.mp hx with h | h
            · exact h ▸ hr
            · exact hch x h
          · have hsucc : n + 1 = (D (ident rp) + 1) + 1 := by omega
            rw [hsucc, List.range_succ]
            simp only [List.map_cons, hmap, List.reverse_append, List.reverse_cons,
              List.reverse_nil, List.nil_append, List.singleton_append]
            rw [hrank]
  intro r hr
  obtain ⟨ch, hch, hmap⟩ := chain (D (ident r)) r hr rfl
  have hlen : ch.length = D (ident r) + 1 := by
    have := congrArg List.length hmap
    simpa using this
  have hnodup : (ch.map ident).Nodup := by
    have h1 : ((ch.map ident).map D).Nodup := by
      rw [List.map_map]
      have heq : (D ∘ ident) = fun x => D (ident x) := rfl
      rw [heq, hmap]
      exact List.nodup_reverse.mpr (List.nodup_range _)
    exact List.Nodup.of_map D h1
  have hsub : (ch.map ident).toFinset ⊆ (l.map ident).toFinset := by
    intro x hx
    rw [List.mem_toFinset] at hx ⊢
    obtain ⟨c, hc, rfl⟩ := List.mem_map.mp hx
    exact List.mem_map_of_mem ident (hch c hc)
  have h1 : (ch.map ident).toFinset.card = D (ident r) + 1 := by
    rw [List.toFinset_card_of_nodup hnodup]
    simp [hlen]
  have h2 : (l.map ident).toFinset.card ≤ l.length := by
    calc (l.map ident).toFinset.card ≤ (l.map ident).length := List.toFinset_card_le _
      _ = l.length := List.length_map _ _
  have := Finset.card_le_card hsub
  omega

end ForestLemmas

/-! ### Flattening the materialized tree -/

mutual

def nodeFlat : TreeNode → List TreeNode
  | .mk i n dsc p pc cs => .mk i n dsc p pc cs :: forestFlat cs

def forestFlat : List TreeNode → List TreeNode
  | [] => []
  | t :: ts => nodeFlat t ++ forestFlat ts

end

/-- All ids occurring in a forest, with multiplicity. -/
def forestIds (f : List TreeNode) : List Nat := (forestFlat f).map TreeNode.id

theorem nodeFlat_eq (t : TreeNode) : nodeFlat t = t :: forestFlat t.children := by
  cases t
  rfl

theorem forestFlat_cons (t : TreeNode) (ts : List TreeNode) :
    forestFlat (t :: ts) = nodeFlat t ++ forestFlat ts := rfl

theorem mem_forestFlat_map {β : Type} (L : List β) (f : β → TreeNode) (node : TreeNode) :
    node ∈ forestFlat (L.map f) ↔ ∃ r ∈ L, node ∈ nodeFlat (f r) := by
  induction L with
  | nil => simp [forestFlat]
  | cons a L ih =>
      simp only [List.map_cons, forestFlat_cons, List.mem_append, ih, List.mem_cons]
      constructor
      · rintro (h | ⟨r, hr, hn⟩)
        · exact ⟨a, Or.inl rfl, h⟩
        · exact ⟨r, Or.inr hr, hn⟩
      · rintro ⟨r, rfl | hr, hn⟩
        · exact Or.inl hn
        · exact Or.inr ⟨r, hr, hn⟩

theorem count_forestFlat_map {β : Type} (L : List β) (f : β → TreeNode) (i : Nat) :
    ((forestFlat (L.map f)).map TreeNode.id).count i
      = (L.map (fun r => (((nodeFlat (f r)).map TreeNode.id).count i))).sum := by
  induction L with
  | nil => simp [forestFlat]
  | cons a L ih =>
      simp only [List.map_cons, forestFlat_cons, List.map_append, List.count_append,
        List.sum_cons, ih]

/-- Sum of a pointwise-zero function. -/
theorem sum_map_zero {β : Type} {L : List β} {g : β → Nat}
    (h : ∀ c ∈ L, g c = 0) : (L.map g).sum = 0 := by
  induction L with
  | nil => rfl
  | cons a L ih =>
      simp only [List.map_cons, List.sum_cons]
      rw [h a (List.mem_cons_self a L), ih (fun c hc => h c (List.mem_cons_of_mem a hc))]

/-- Sum of a function that is `1` at a single member of a duplicate-free
list and `0` elsewhere. -/
theorem sum_map_single {β : Type} [DecidableEq β] {L : List β} {g : β → Nat} {c₀ : β}
    (hnd : L.Nodup) (hc : c₀ ∈ L) (h1 : g c₀ = 1) (h0 : ∀ c ∈ L, c ≠ c₀ → g c = 0) :
    (L.map g).sum = 1 := by
  induction L with
  | nil => cases hc
  | cons a L ih =>
      simp only [List.map_cons, List.sum_cons]
      rcases List.mem_cons.mp hc with rfl | hc'
      · rw [h1, sum_map_zero (fun c hcL => h0 c (List.mem_cons_of_mem _ hcL)
          (fun h => (List.nodup_cons.mp hnd).1 (h ▸ hcL)))]
      · have ha : a ≠ c₀ := fun h => (List.nodup_cons.mp hnd).1 (h ▸ hc')
        rw [h0 a (List.mem_cons_self a L) ha,
          ih (List.nodup_cons.mp hnd).2 hc' (fun c hcL hne => h0 c (List.mem_cons_of_mem a hcL) hne)]

/-! ### Correctness of `buildTree` on valid forests -/

/-- Fuel invariant of `buildTree`'s recursion: starting from
`rows.length + 1` at the root group, enough fuel always remains to fully
explore everything below the current cursor. -/
def TreeInv (rows : List CatRow) (D : Nat → Nat) (fuel : Nat) (pid : Option Nat) : Prop :=
  match pid with
  | none => rows.length + 1 ≤ fuel
  | some q => ∃ rq ∈ rows, rq.id = q ∧ rows.length ≤ fuel + D rq.id

section BuildTreeProofs

variable {rows : List CatRow} {D : Nat → Nat}

theorem TreeInv_zero (hN : (rows.map CatRow.id).Nodup)
    (hD : RankOK CatRow.id CatRow.parentId rows D) {pid : Option Nat} :
    ¬ TreeInv rows D 0 pid := by
  intro hinv
  rcases pid with _ | q
  · simp [TreeInv] at hinv
  · obtain ⟨rq, hrq, _, hle⟩ := hinv
    have := rank_lt_length hN hD rq hrq
    omega

theorem TreeInv_step (hN : (rows.map CatRow.id).Nodup)
    (hD : RankOK CatRow.id CatRow.parentId rows D) {fuel : Nat} {pid : Option Nat}
    (hinv : TreeInv rows D (fuel + 1) pid)
    {c : CatRow} (hc : c ∈ rows) (hcp : c.parentId = pid) :
    TreeInv rows D fuel (some c.id) := by
  have hrank := hD c hc
  rcases pid with _ | q
  · rw [hcp] at hrank
    simp only [TreeInv] at hinv ⊢
    exact ⟨c, hc, rfl, by omega⟩
  · rw [hcp] at hrank
    obtain ⟨rq, hrq, hqid, hle⟩ := hinv
    obtain ⟨rp, hrp, hpid, hck⟩ := hrank
    have heq : rp = rq := ident_inj hN hrp hrq (hpid.trans hqid.symm)
    subst heq
    have hlt := rank_lt_length hN hD rp hrp
    exact ⟨c, hc, rfl, by omega⟩

theorem TreeInv_one_le (hN : (rows.map CatRow.id).Nodup)
    (hD : RankOK CatRow.id CatRow.parentId rows D) {fuel : Nat} {pid : Option Nat}
    (hinv : TreeInv rows D fuel pid) : 1 ≤ fuel := by
  rcases Nat.eq_zero_or_pos fuel with h0 | h
  · exact absurd (h0 ▸ hinv) (TreeInv_zero hN hD)
  · exact h

/-- One unfolding of `buildTree` at positive fuel. -/
theorem buildTree_succ (fuel : Nat) (pid : Option Nat) :
    buildTree rows (fuel + 1) pid
      = (rows.filter (fun r => r.parentId == pid)).map (fun r =>
          .mk r.id r.name r.description r.parentId r.productCount
            (buildTree rows fuel (some r.id))) := rfl

/-- Each materialized node's `children` list carries exactly the ids of
the rows whose `parentId` is that node's id. -/
theorem buildTree_children_ids (hN : (rows.map CatRow.id).Nodup)
    (hD : RankOK CatRow.id CatRow.parentId rows D) :
    ∀ fuel pid, TreeInv rows D fuel pid →
      ∀ node ∈ forestFlat (buildTree rows fuel pid),
        node.children.map TreeNode.id
          = (rows.filter (fun r => r.parentId == some node.id)).map CatRow.id := by
  intro fuel
  induction fuel with
  | zero => intro pid hinv; exact absurd hinv (TreeInv_zero hN hD)
  | succ fuel ih =>
      intro pid hinv node hnode
      rw [buildTree_succ, mem_forestFlat_map] at hnode
      obtain ⟨r, hrF, hnode⟩ := hnode
      have hr : r ∈ rows := List.mem_of_mem_filter hrF
      have hrp : r.parentId = pid := by simpa using List.of_mem_filter hrF
      have hinv' := TreeInv_step hN hD hinv hr hrp
      rw [nodeFlat_eq] at hnode
      rcases List.mem_cons.mp hnode with rfl | hdeep
      · have hfuel1 := TreeInv_one_le hN hD hinv'
        obtain ⟨fuel', rfl⟩ : ∃ f', fuel = f' + 1 := ⟨fuel - 1, by omega⟩
        show (buildTree rows (fuel' + 1) (some r.id)).map TreeNode.id
          = (rows.filter (fun x => x.parentId == some r.id)).map CatRow.id
        rw [buildTree_succ, List.map_map]
        exact List.map_congr_left (fun a _ => rfl)
      · exact ih (some r.id) hinv' node hdeep

/-- The per-node contribution to the id multiset of a flattened forest. -/
theorem node_term (c : CatRow) (cs : List TreeNode) (i : Nat) :
    ((nodeFlat (TreeNode.mk c.id c.name c.description c.parentId c.productCount cs)).map
        TreeNode.id).count i
      = (forestIds cs).count i + (if c.id == i then 1 else 0) := by
  rw [nodeFlat_eq]
  show ((TreeNode.mk c.id c.name c.description c.parentId c.productCount cs).id ::
      (forestFlat cs).map TreeNode.id).count i = _
  rw [List.count_cons]
  rfl

/-- Every row below the cursor appears exactly once in the materialized
forest, and no other id appears at all. -/
theorem buildTree_count (hN : (rows.map CatRow.id).Nodup)
    (hD : RankOK CatRow.id CatRow.parentId rows D) :
    ∀ fuel pid, TreeInv rows D fuel pid → ∀ i,
      ((∃ r ∈ rows, r.id = i ∧ Reach CatRow.id CatRow.parentId rows r pid) →
          (forestIds (buildTree rows fuel pid)).count i = 1) ∧
      ((¬ ∃ r ∈ rows, r.id = i ∧ Reach CatRow.id CatRow.parentId rows r pid) →
          (forestIds (buildTree rows fuel pid)).count i = 0) := by
  intro fuel
  induction fuel with
  | zero => intro pid hinv; exact absurd hinv (TreeInv_zero hN hD)
  | succ fuel ih =>
      intro pid hinv i
      have hrnd : rows.Nodup := List.Nodup.of_map _ hN
      have hunfold : (forestIds (buildTree rows (fuel + 1) pid)).count i
          = ((rows.filter (fun r => r.parentId == pid)).map (fun c =>
              (forestIds (buildTree rows fuel (some c.id))).count i
                + (if c.id == i then 1 else 0))).sum := by
        rw [forestIds, buildTree_succ, count_forestFlat_map]
        exact congrArg List.sum (List.map_congr_left (fun c _ => node_term c _ i))
      have hmemF : ∀ c ∈ rows.filter (fun r => r.parentId == pid),
          c ∈ rows ∧ c.parentId = pid := fun c hc =>
        ⟨List.mem_of_mem_filter hc, by simpa using List.of_mem_filter hc⟩
      constructor
      · rintro ⟨r₀, hr₀, rfl, d, hd⟩
        rcases d with _ | d'
        · -- direct child of the cursor
          have hr₀p : r₀.parentId = pid := by simpa [ancAt] using hd
          have hr₀F : r₀ ∈ rows.filter (fun r => r.parentId == pid) :=
            List.mem_filter_of_mem hr₀ (by simp [hr₀p])
          rw [hunfold]
          apply sum_map_single (hrnd.filter _) hr₀F
          · have hsub : (forestIds (buildTree rows fuel (some r₀.id))).count r₀.id = 0 := by
              refine ((ih (some r₀.id) (TreeInv_step hN hD hinv hr₀ hr₀p) r₀.id).2) ?_
              rintro ⟨r, hr, hri, d', hd'⟩
              have heq : r = r₀ := ident_inj hN hr hr₀ hri
              subst heq
              have hext := ancAt_extend hN hr₀ rfl d' hd'
              rw [hr₀p] at hext
              have := ancAt_unique hN hD hr₀ hext hd
              omega
            simp [hsub]
          · intro c hcF hne
            obtain ⟨hc, hcp⟩ := hmemF c hcF
            have hsub : (forestIds (buildTree rows fuel (some c.id))).count r₀.id = 0 := by
              refine ((ih (some c.id) (TreeInv_step hN hD hinv hc hcp) r₀.id).2) ?_
              rintro ⟨r, hr, hri, d', hd'⟩
              have heq : r = r₀ := ident_inj hN hr hr₀ hri
              subst heq
              have hext := ancAt_extend hN hc rfl d' hd'
              rw [hcp] at hext
              have := ancAt_unique hN hD hr₀ hext hd
              omega
            have hid : ¬ (c.id == r₀.id) = true := by
              intro h
              exact hne (ident_inj hN hc hr₀ (by simpa using h))
            simp [hsub, hid]
        · -- r₀ sits deeper: split off the last hop
          obtain ⟨c₀, hc₀, hc₀p, hc₀anc⟩ := @ancAt_last CatRow _ CatRow.id CatRow.parentId rows r₀ pid d' hd
          have hc₀F : c₀ ∈ rows.filter (fun r => r.parentId == pid) :=
            List.mem_filter_of_mem hc₀ (by simp [hc₀p])
          rw [hunfold]
          apply sum_map_single (hrnd.filter _) hc₀F
          · have hsub : (forestIds (buildTree rows fuel (some c₀.id))).count r₀.id = 1 := by
              refine ((ih (some c₀.id) (TreeInv_step hN hD hinv hc₀ hc₀p) r₀.id).1) ?_
              exact ⟨r₀, hr₀, rfl, d', hc₀anc⟩
            have hid : ¬ (c₀.id == r₀.id) = true := by
              intro h
              have heq : c₀ = r₀ := ident_inj hN hc₀ hr₀ (by simpa using h)
              subst heq
              have h0 : ancAt CatRow.id CatRow.parentId rows 0 c₀ = some pid := by
                simp [ancAt, hc₀p]
              have := ancAt_unique hN hD hc₀ h0 hd
              omega
            simp [hsub, hid]
          · intro c hcF hne
            obtain ⟨hc, hcp⟩ := hmemF c hcF
            have hsub : (forestIds (buildTree rows fuel (some c.id))).count r₀.id = 0 := by
              refine ((ih (some c.id) (TreeInv_step hN hD hinv hc hcp) r₀.id).2) ?_
              rintro ⟨r, hr, hri, e, he⟩
              have heq : r = r₀ := ident_inj hN hr hr₀ hri
              subst heq
              have hext := ancAt_extend hN hc rfl e he
              rw [hcp] at hext
              have hee := ancAt_unique hN hD hr₀ hext hd
              have : e = d' := by omega
              subst this
              rw [he] at hc₀anc
              have : c.id = c₀.id := by
                have := hc₀anc
                injection this with h1
                injection h1
              exact hne (ident_inj hN hc hc₀ this)
            have hid : ¬ (c.id == r₀.id) = true := by
              intro h
              have heq : c = r₀ := ident_inj hN hc hr₀ (by simpa using h)
              subst heq
              have h0 : ancAt CatRow.id CatRow.parentId rows 0 c = some pid := by
                simp [ancAt, hcp]
              have := ancAt_unique hN hD hr₀ h0 hd
              omega
            simp [hsub, hid]
      · intro hno
        rw [hunfold]
        apply sum_map_zero
        intro c hcF
        obtain ⟨hc, hcp⟩ := hmemF c hcF
        have hsub : (forestIds (buildTree rows fuel (some c.id))).count i = 0 := by
          refine ((ih (some c.id) (TreeInv_step hN hD hinv hc hcp) i).2) ?_
          rintro ⟨r, hr, hri, e, he⟩
          refine hno ⟨r, hr, hri, e + 1, ?_⟩
          have hext := ancAt_extend hN hc rfl e he
          rw [hcp] at hext
          exact hext
        have hid : ¬ (c.id == i) = true := by
          intro h
          refine hno ⟨c, hc, by simpa using h, 0, ?_⟩
          simp [ancAt, hcp]
        simp [hsub, hid]

end BuildTreeProofs

/-- Sibling order: the roots of the forest built from a name-sorted flat
list are name-sorted. -/
theorem buildTree_roots_sorted {rows : List CatRow}
    (hs : List.Pairwise (fun a b : CatRow => strLe a.name b.name) rows) :
    ∀ fuel pid,
      List.Pairwise (fun a b : TreeNode => strLe a.name b.name) (buildTree rows fuel pid) := by
  intro fuel pid
  cases fuel with
  | zero => exact List.Pairwise.nil
  | succ fuel =>
      rw [buildTree_succ]
      rw [List.pairwise_map]
      exact (hs.filter _).imp (fun h => h)

/-- Sibling order: every node's children in the built forest are
name-sorted. -/
theorem buildTree_children_sorted {rows : List CatRow}
    (hs : List.Pairwise (fun a b : CatRow => strLe a.name b.name) rows) :
    ∀ fuel pid, ∀ node ∈ forestFlat (buildTree rows fuel pid),
      List.Pairwise (fun a b : TreeNode => strLe a.name b.name) node.children := by
  intro fuel
  induction fuel with
  | zero => intro pid node hnode; simp [buildTree, forestFlat] at hnode
  | succ fuel ih =>
      intro pid node hnode
      rw [buildTree_succ, mem_forestFlat_map] at hnode
      obtain ⟨r, _, hnode⟩ := hnode
      rw [nodeFlat_eq] at hnode
      rcases List.mem_cons.mp hnode with rfl | hdeep
      · exact buildTree_roots_sorted hs fuel _
      · exact ih (some r.id) node hdeep

/-! ### Transfer from raw tenant rows to `buildTree` input rows -/

/-- The tenant-filtered raw category rows. -/
def tenantCats (s : Store) (tenantId : Nat) : List Cat :=
  s.cats.filter (fun c => c.tenantId == tenantId)

/-- The product-count annotation applied to one raw row. -/
def toCatRow (s : Store) (c : Cat) : CatRow :=
  { id := c.id, name := c.name, description := c.description,
    parentId := c.parentId, productCount := countProducts s.products c.id }

theorem treeRows_eq (s : Store) (tenantId : Nat) :
    treeRows s tenantId = (sortByName (tenantCats s tenantId)).map (toCatRow s) := rfl

theorem treeRows_ids_perm (s : Store) (tenantId : Nat) :
    List.Perm ((treeRows s tenantId).map CatRow.id) ((tenantCats s tenantId).map Cat.id) := by
  rw [treeRows_eq, List.map_map]
  have h1 : (sortByName (tenantCats s tenantId)).map (CatRow.id ∘ toCatRow s)
      = (sortByName (tenantCats s tenantId)).map Cat.id :=
    List.map_congr_left (fun a _ => rfl)
  rw [h1]
  exact (List.perm_insertionSort nameLe _).map Cat.id

theorem treeRows_nodup {s : Store} {tenantId : Nat}
    (hN : ((tenantCats s tenantId).map Cat.id).Nodup) :
    ((treeRows s tenantId).map CatRow.id).Nodup :=
  (treeRows_ids_perm s tenantId).symm.nodup hN

theorem treeRows_rank {s : Store} {tenantId : Nat} {D : Nat → Nat}
    (hD : RankOK Cat.id Cat.parentId (tenantCats s tenantId) D) :
    RankOK CatRow.id CatRow.parentId (treeRows s tenantId) D := by
  intro r hr
  rw [treeRows_eq] at hr
  obtain ⟨c, hc, rfl⟩ := List.mem_map.mp hr
  have hc' : c ∈ tenantCats s tenantId :=
    (List.perm_insertionSort nameLe _).mem_iff.mp hc
  have hmain := hD c hc'
  simp only [toCatRow]
  rcases hpar : c.parentId with _ | p
  · rw [hpar] at hmain
    exact hmain
  · rw [hpar] at hmain
    obtain ⟨cp, hcp, hid, hrank⟩ := hmain
    have hrp : toCatRow s cp ∈ treeRows s tenantId := by
      rw [treeRows_eq]
      exact List.mem_map_of_mem _ ((List.perm_insertionSort nameLe _).symm.mem_iff.mp hcp)
    exact ⟨toCatRow s cp, hrp, hid, hrank⟩

theorem treeRows_sorted (s : Store) (tenantId : Nat) :
    List.Pairwise (fun a b : CatRow => strLe a.name b.name) (treeRows s tenantId) := by
  rw [treeRows_eq, List.pairwise_map]
  have := List.sorted_insertionSort nameLe (tenantCats s tenantId)
  exact this.imp (fun h => h)

/-! ### Assembling the tree round-trip claim -/

theorem getCategoryTree_eq (s : Store) (tenantId : Nat) :
    getCategoryTree s tenantId
      = buildTree (treeRows s tenantId) ((treeRows s tenantId).length + 1) none := rfl

/-- `buildTree`-side child rows and raw tenant child rows carry the same
ids up to order. -/
theorem rowsFilter_ids_perm (s : Store) (tenantId nid : Nat) :
    List.Perm (((treeRows s tenantId).filter (fun r => r.parentId == some nid)).map CatRow.id)
      (((tenantCats s tenantId).filter (fun c => c.parentId == some nid)).map Cat.id) := by
  rw [treeRows_eq]
  rw [List.filter_map]
  rw [List.map_map]
  have h1 : ((sortByName (tenantCats s tenantId)).filter
        ((fun r : CatRow => r.parentId == some nid) ∘ toCatRow s)).map (CatRow.id ∘ toCatRow s)
      = ((sortByName (tenantCats s tenantId)).filter
        (fun c : Cat => c.parentId == some nid)).map Cat.id := by
    rw [List.filter_congr (fun c _ => rfl)]
    exact List.map_congr_left (fun c _ => rfl)
  rw [h1]
  exact ((List.perm_insertionSort nameLe _).filter _).map _

/-- The parent-filtered flat listing, characterised over the raw tenant
rows. -/
theorem getCategories_byParent (s : Store) (tenantId nid : Nat) :
    getCategories s tenantId { search := none, parentId := some (some nid) }
      = (sortByName ((tenantCats s tenantId).filter (fun c => c.parentId == some nid))).map
          (toCatListItem s) := by
  rw [getCategories]
  have harg : s.cats.filter (listConds tenantId { search := none, parentId := some (some nid) })
      = (tenantCats s tenantId).filter (fun c => c.parentId == some nid) := by
    rw [tenantCats, List.filter_filter]
    exact List.filter_congr (fun c _ => by
      cases h1 : c.tenantId == tenantId <;> cases h2 : c.parentId == some nid <;>
        simp [listConds, h1, h2])
  rw [harg]

theorem getCategories_byParent_ids_perm (s : Store) (tenantId nid : Nat) :
    List.Perm
      ((getCategories s tenantId { search := none, parentId := some (some nid) }).map
        CatListItem.id)
      (((tenantCats s tenantId).filter (fun c => c.parentId == some nid)).map Cat.id) := by
  rw [getCategories_byParent, List.map_map]
  have h1 : ((sortByName ((tenantCats s tenantId).filter (fun c => c.parentId == some nid))).map
        (CatListItem.id ∘ toCatListItem s))
      = (sortByName ((tenantCats s tenantId).filter (fun c => c.parentId == some nid))).map Cat.id :=
    List.map_congr_left (fun c _ => rfl)
  rw [h1]
  exact (List.perm_insertionSort nameLe _).map _

/-- C7: for a tenant whose categories form a valid forest, `getCategoryTree`
produces a forest in which (a) every node's `children` equals, by id, the
flat listing filtered to that node (`list(parentId = node.id)`), (b) every
category appears exactly once, (c) roots and every node's children are
ordered by name, and (d) a node's `children` list is empty exactly when the
node has no child categories (the field is a list, never absent). -/
theorem c7_tree_roundtrip (s : Store) (tenantId : Nat)
    (hf : ForestOK Cat.id Cat.parentId (tenantCats s tenantId)) :
    (∀ node ∈ forestFlat (getCategoryTree s tenantId),
        List.Perm (node.children.map TreeNode.id)
          ((getCategories s tenantId { search := none, parentId := some (some node.id) }).map
            CatListItem.id))
    ∧ List.Perm (forestIds (getCategoryTree s tenantId)) ((tenantCats s tenantId).map Cat.id)
    ∧ List.Pairwise (fun a b : TreeNode => strLe a.name b.name) (getCategoryTree s tenantId)
    ∧ (∀ node ∈ forestFlat (getCategoryTree s tenantId),
        List.Pairwise (fun a b : TreeNode => strLe a.name b.name) node.children)
    ∧ (∀ node ∈ forestFlat (getCategoryTree s tenantId),
        (node.children = [] ↔
          getCategories s tenantId { search := none, parentId := some (some node.id) } = [])) := by
  obtain ⟨hN, D, hD⟩ := hf
  have hN' : ((treeRows s tenantId).map CatRow.id).Nodup := treeRows_nodup hN
  have hD' : RankOK CatRow.id CatRow.parentId (treeRows s tenantId) D := treeRows_rank hD
  have hinv : TreeInv (treeRows s tenantId) D ((treeRows s tenantId).length + 1) none := by
    simp [TreeInv]
  have ha : ∀ node ∈ forestFlat (getCategoryTree s tenantId),
      List.Perm (node.children.map TreeNode.id)
        ((getCategories s tenantId { search := none, parentId := some (some node.id) }).map
          CatListItem.id) := by
    intro node hnode
    rw [getCategoryTree_eq] at hnode
    have hchild := buildTree_children_ids hN' hD' _ none hinv node hnode
    rw [hchild]
    exact (rowsFilter_ids_perm s tenantId node.id).trans
      (getCategories_byParent_ids_perm s tenantId node.id).symm
  refine ⟨ha, ?_, ?_, ?_, ?_⟩
  · rw [List.perm_iff_count]
    intro i
    have hcount := buildTree_count hN' hD' _ none hinv i
    by_cases hex : ∃ r ∈ treeRows s tenantId, r.id = i ∧
        Reach CatRow.id CatRow.parentId (treeRows s tenantId) r none
    · rw [getCategoryTree_eq, hcount.1 hex]
      obtain ⟨r, hr, rfl, _⟩ := hex
      have hmem : r.id ∈ (treeRows s tenantId).map CatRow.id := List.mem_map_of_mem _ hr
      have hmem' : r.id ∈ (tenantCats s tenantId).map Cat.id :=
        (treeRows_ids_perm s tenantId).mem_iff.mp hmem
      exact (List.count_eq_one_of_mem hN hmem').symm
    · rw [getCategoryTree_eq, hcount.2 hex]
      have hnotmem : i ∉ (tenantCats s tenantId).map Cat.id := by
        intro hmem
        have hmem' : i ∈ (treeRows s tenantId).map CatRow.id :=
          (treeRows_ids_perm s tenantId).mem_iff.mpr hmem
        obtain ⟨r, hr, rfl⟩ := List.mem_map.mp hmem'
        exact hex ⟨r, hr, rfl, D r.id, ancAt_total hN' hD' r hr⟩
      exact (List.count_eq_zero.mpr hnotmem).symm
  · rw [getCategoryTree_eq]
    exact buildTree_roots_sorted (treeRows_sorted s tenantId) _ none
  · intro node hnode
    rw [getCategoryTree_eq] at hnode
    exact buildTree_children_sorted (treeRows_sorted s tenantId) _ none node hnode
  · intro node hnode
    have hperm := ha node hnode
    constructor
    · intro h
      rw [h] at hperm
      have h1 : (getCategories s tenantId
          { search := none, parentId := some (some node.id) }).map CatListItem.id = [] := by
        simpa using (List.perm_nil.mp hperm.symm)
      exact List.map_eq_nil_iff.mp h1
    · intro h
      rw [h] at hperm
      have h1 : node.children.map TreeNode.id = [] := by
        simpa using List.perm_nil.mp hperm
      exact List.map_eq_nil_iff.mp h1

/-! ### A decidable check for rank certificates (used by concrete
instantiations) -/

def rankOKb {α : Type} [DecidableEq α] (ident : α → Nat) (par : α → Option Nat)
    (l : List α) (D : Nat → Nat) : Bool :=
  l.all (fun r => match par r with
    | none => D (ident r) == 0
    | some p => l.any (fun rp => ident rp == p && D (ident r) == D (ident rp) + 1))

theorem rankOKb_iff {α : Type} [DecidableEq α] (ident : α → Nat) (par : α → Option Nat)
    (l : List α) (D : Nat → Nat) :
    rankOKb ident par l D = true ↔ RankOK ident par l D := by
  rw [rankOKb, List.all_eq_true]
  constructor
  · intro h r hr
    have hb := h r hr
    show (match par r with
      | none => D (ident r) = 0
      | some p => ∃ rp ∈ l, ident rp = p ∧ D (ident r) = D (ident rp) + 1)
    rcases hp : par r with _ | p
    · rw [hp] at hb
      simpa using hb
    · rw [hp] at hb
      rw [List.any_eq_true] at hb
      obtain ⟨rp, hrp, hcond⟩ := hb
      rw [Bool.and_eq_true] at hcond
      exact ⟨rp, hrp, by simpa using hcond.1, by simpa using hcond.2⟩
  · intro h r hr
    have hb := h r hr
    rcases hp : par r with _ | p
    · rw [hp] at hb
      simpa using hb
    · rw [hp] at hb
      obtain ⟨rp, hrp, h1, h2⟩ := hb
      rw [List.any_eq_true]
      exact ⟨rp, hrp, by simp [h1, h2]⟩

/-- A concrete store: tenant 1 holds "Electronics" (id 1, root),
"Clothing" (id 2, root) and "Laptops" (id 3, under 1). -/
def storeC7 : Store :=
  { cats := [
      { id := 1, tenantId := 1, name := "Electronics", description := none, parentId := none },
      { id := 2, tenantId := 1, name := "Clothing", description := none, parentId := none },
      { id := 3, tenantId := 1, name := "Laptops", description := none, parentId := some 1 }],
    products := [], nextId := 4 }

/-- Witness for C7: the three-category store is a valid forest and the
round-trip conclusion holds for it. -/
theorem c7_tree_roundtrip_witness :
    ForestOK Cat.id Cat.parentId (tenantCats storeC7 1) ∧
    List.Perm (forestIds (getCategoryTree storeC7 1)) ((tenantCats storeC7 1).map Cat.id) := by
  have hf : ForestOK Cat.id Cat.parentId (tenantCats storeC7 1) :=
    ⟨by decide, fun i => if i == 3 then 1 else 0,
      (rankOKb_iff _ _ _ _).mp (by decide)⟩
  exact ⟨hf, (c7_tree_roundtrip storeC7 1 hf).2.1⟩

/-! ### Claims about creation and reparenting guards -/
theorem c4_create_errors :
    (∀ parentId tenantId, checkCircularReference parentId tenantId = false) ∧
    (∀ (s : Store) (data : CreateCategoryInput) (tenantId : Nat) (e : Err),
      (createCategory s data tenantId).1 = .error e →
        e = .parentNotFound ∨ e = .duplicateName) := by
  refine ⟨fun _ _ => rfl, ?_⟩
  intro s data tenantId e h
  simp only [createCategory, checkCircularReference, Bool.false_eq_true, if_false] at h
  split at h
  · rename_i e' heq
    split at heq
    · split at heq <;> simp_all
    · simp_all
  · split at h <;> simp_all

/-- With globally distinct ids, the id+tenant lookup of a member row of
the right tenant returns exactly that row. -/
theorem find_cat {s : Store} {tenantId : Nat} (hN : (s.cats.map Cat.id).Nodup)
    {c : Cat} (hc : c ∈ s.cats) (ht : c.tenantId = tenantId) :
    s.cats.find? (fun x => x.id == c.id && x.tenantId == tenantId) = some c := by
  apply find_unique hc (by simp [ht])
  intro b hb hpb
  rw [Bool.and_eq_true] at hpb
  exact List.inj_on_of_nodup_map hN hb hc (by simpa using hpb.1)

/-- C3: reparenting guards. `update(id, {parentId: id})` always fails with
the self-parenting conflict for any existing id, and for an ancestor chain
a → b → c within one tenant, `update(a, {parentId: c})` fails with the
circular-reference conflict because the upward walk from c reaches a. -/
theorem c3_reparent_guards :
    (∀ (s : Store) (i tenantId : Nat) (data : UpdateCategoryInput),
      data.parentId = some (some i) →
      (∃ c ∈ s.cats, c.id = i ∧ c.tenantId = tenantId) →
      updateCategory s i data tenantId = (.error .selfParent, s)) ∧
    (∀ (s : Store) (tenantId : Nat) (a b c : Cat),
      (s.cats.map Cat.id).Nodup →
      a ∈ s.cats → b ∈ s.cats → c ∈ s.cats →
      a.tenantId = tenantId → b.tenantId = tenantId → c.tenantId = tenantId →
      b.parentId = some a.id → c.parentId = some b.id →
      a.id ≠ b.id → a.id ≠ c.id → b.id ≠ c.id →
      a.id ≠ 0 → b.id ≠ 0 →
      updateCategory s a.id
          { name := none, description := none, parentId := some (some c.id) } tenantId
        = (.error .circularRef, s)) := by
  constructor
  · intro s i tenantId data hdp hex
    have hfind : (s.cats.find? (fun x => x.id == i && x.tenantId == tenantId)).isSome := by
      rw [List.find?_isSome]
      obtain ⟨c, hc, hid, ht⟩ := hex
      exact ⟨c, hc, by simp [hid, ht]⟩
    obtain ⟨c₀, hc₀⟩ := Option.isSome_iff_exists.mp hfind
    simp [updateCategory, getCategoryById, hc₀, hdp]
  · intro s tenantId a b c hN ha hb hc hat hbt hct hbp hcp hab hac hbc ha0 hb0
    have hfa := find_cat hN ha hat
    have hfb := find_cat hN hb hbt
    have hfc := find_cat hN hc hct
    have hca' : (c.id == a.id) = false := by
      rw [beq_eq_false_iff_ne]
      exact Ne.symm hac
    have hba' : (b.id == a.id) = false := by
      rw [beq_eq_false_iff_ne]
      exact Ne.symm hab
    have ha0' : (a.id == 0) = false := by simp [ha0]
    have hb0' : (b.id == 0) = false := by simp [hb0]
    obtain ⟨m, hm⟩ : ∃ m, s.cats.length = m + 1 := by
      have := List.length_pos_of_mem ha
      exact ⟨s.cats.length - 1, by omega⟩
    have hwcr : wouldCreateCircularReference s a.id c.id tenantId = .ok true := by
      rw [wouldCreateCircularReference, hm]
      rw [wcrLoop, if_neg (by simp [hca'])]
      rw [hfc]
      show wcrLoop s.cats a.id tenantId (jsOrNull c.parentId) (m + 1) = .ok true
      rw [hcp, show jsOrNull (some b.id) = some b.id by simp [jsOrNull, hb0']]
      rw [wcrLoop, if_neg (by simp [hba'])]
      rw [hfb]
      show wcrLoop s.cats a.id tenantId (jsOrNull b.parentId) m = .ok true
      rw [hbp, show jsOrNull (some a.id) = some a.id by simp [jsOrNull, ha0']]
      rw [wcrLoop.eq_def]
      simp
    simp [updateCategory, getCategoryById, hfa, hca', hfc, hwcr]

def storeC4 : Store := { cats := [], products := [], nextId := 1 }

def inputC4 : CreateCategoryInput := { name := "Phones", description := none, parentId := some 5 }

/-- Witness for C4 at a concrete failing create. -/
theorem c4_create_errors_witness :
    (createCategory storeC4 inputC4 1).1 = .error .parentNotFound ∧
    (Err.parentNotFound = .parentNotFound ∨ Err.parentNotFound = .duplicateName) :=
  ⟨rfl, c4_create_errors.2 storeC4 inputC4 1 .parentNotFound rfl⟩

def catA : Cat := { id := 1, tenantId := 7, name := "A", description := none, parentId := none }

def catB : Cat := { id := 2, tenantId := 7, name := "B", description := none, parentId := some 1 }

def catC : Cat := { id := 3, tenantId := 7, name := "C", description := none, parentId := some 2 }

def storeC3 : Store := { cats := [catA, catB, catC], products := [], nextId := 4 }

/-- Witness for C3 on the concrete chain a(1) → b(2) → c(3) of tenant 7. -/
theorem c3_reparent_guards_witness :
    updateCategory storeC3 1 { name := none, description := none, parentId := some (some 1) } 7
      = (.error .selfParent, storeC3) ∧
    updateCategory storeC3 1 { name := none, description := none, parentId := some (some 3) } 7
      = (.error .circularRef, storeC3) :=
  ⟨c3_reparent_guards.1 storeC3 1 7 _ rfl (by decide),
   c3_reparent_guards.2 storeC3 7 catA catB catC (by decide) (by decide) (by decide) (by decide)
     rfl rfl rfl rfl rfl (by decide) (by decide) (by decide) (by decide) (by decide)⟩

/-- C5: the breadcrumb is root-first: for a chain root → mid → leaf in one
tenant, `getCategoryPath(leaf)` returns `[root, mid, leaf]` and
`getCategoryPath(root)` returns `[root]`; and an id that does not resolve
in the calling tenant yields the empty sequence, not a failure. -/
theorem c5_path_breadcrumb :
    (∀ (s : Store) (tenantId : Nat) (root mid leaf : Cat),
      (s.cats.map Cat.id).Nodup →
      root ∈ s.cats → mid ∈ s.cats → leaf ∈ s.cats →
      root.tenantId = tenantId → mid.tenantId = tenantId → leaf.tenantId = tenantId →
      root.parentId = none → mid.parentId = some root.id → leaf.parentId = some mid.id →
      getCategoryPath s leaf.id tenantId
          = .ok [{ id := root.id, name := root.name }, { id := mid.id, name := mid.name },
                 { id := leaf.id, name := leaf.name }]
        ∧ getCategoryPath s root.id tenantId = .ok [{ id := root.id, name := root.name }])
    ∧ (∀ (s : Store) (tenantId j : Nat),
        (∀ c ∈ s.cats, ¬(c.id = j ∧ c.tenantId = tenantId)) →
        getCategoryPath s j tenantId = .ok []) := by
  constructor
  · intro s tenantId root mid leaf hN hr hm hl hrt hmt hlt hrp hmp hlp
    have hfr := find_cat hN hr hrt
    have hfm := find_cat hN hm hmt
    have hfl := find_cat hN hl hlt
    have hmr : mid ≠ root := by
      intro h
      rw [h, hrp] at hmp
      cases hmp
    have hlr : leaf ≠ root := by
      intro h
      rw [h, hrp] at hlp
      cases hlp
    have hlm : leaf ≠ mid := by
      intro h
      rw [h, hmp] at hlp
      have : root = mid := List.inj_on_of_nodup_map hN hr hm (by injection hlp)
      rw [this] at hrp
      rw [hrp] at hmp
      cases hmp
    have hcard : ({root, mid, leaf} : Finset Cat).card = 3 := by
      rw [Finset.card_eq_three]
      exact ⟨root, mid, leaf, fun h => hmr h.symm, fun h => hlr h.symm,
        fun h => hlm h.symm, rfl⟩
    have hsub : ({root, mid, leaf} : Finset Cat) ⊆ s.cats.toFinset := by
      intro x hx
      rw [List.mem_toFinset]
      rcases Finset.mem_insert.mp hx with rfl | hx
      · exact hr
      rcases Finset.mem_insert.mp hx with rfl | hx
      · exact hm
      rw [Finset.mem_singleton] at hx
      exact hx ▸ hl
    have hlen : 3 ≤ s.cats.length := by
      have h1 := Finset.card_le_card hsub
      have h2 := List.toFinset_card_le s.cats
      omega
    obtain ⟨k, hk⟩ : ∃ k, s.cats.length = k + 3 := ⟨s.cats.length - 3, by omega⟩
    constructor
    · rw [getCategoryPath, hk]
      rw [pathLoop, hfl]
      show pathLoop s.cats tenantId leaf.parentId (k + 3)
        [{ id := leaf.id, name := leaf.name }] = _
      rw [hlp, pathLoop, hfm]
      show pathLoop s.cats tenantId mid.parentId (k + 2)
        [{ id := mid.id, name := mid.name }, { id := leaf.id, name := leaf.name }] = _
      rw [hmp, pathLoop, hfr]
      show pathLoop s.cats tenantId root.parentId (k + 1)
        [{ id := root.id, name := root.name }, { id := mid.id, name := mid.name },
         { id := leaf.id, name := leaf.name }] = _
      rw [hrp]
      rfl
    · rw [getCategoryPath, hk]
      rw [pathLoop, hfr]
      show pathLoop s.cats tenantId root.parentId (k + 3)
        [{ id := root.id, name := root.name }] = _
      rw [hrp]
      rfl
  · intro s tenantId j hno
    have hfind : s.cats.find? (fun c => c.id == j && c.tenantId == tenantId) = none := by
      rw [List.find?_eq_none]
      intro c hc
      have := hno c hc
      simp only [Bool.and_eq_true, beq_iff_eq]
      intro h
      exact this ⟨h.1, h.2⟩
    rw [getCategoryPath]
    rw [pathLoop, hfind]

def rootC5 : Cat := { id := 1, tenantId := 7, name := "A", description := none, parentId := none }

def midC5 : Cat := { id := 2, tenantId := 7, name := "B", description := none, parentId := some 1 }

def leafC5 : Cat := { id := 3, tenantId := 7, name := "C", description := none, parentId := some 2 }

def storeC5 : Store := { cats := [rootC5, midC5, leafC5], products := [], nextId := 4 }

/-- Witness for C5 on the concrete chain A(1) → B(2) → C(3) of tenant 7
plus the unresolvable id 9. -/
theorem c5_path_breadcrumb_witness :
    getCategoryPath storeC5 3 7
        = .ok [{ id := 1, name := "A" }, { id := 2, name := "B" }, { id := 3, name := "C" }]
    ∧ getCategoryPath storeC5 1 7 = .ok [{ id := 1, name := "A" }]
    ∧ getCategoryPath storeC5 9 7 = .ok [] :=
  ⟨(c5_path_breadcrumb.1 storeC5 7 rootC5 midC5 leafC5 (by decide) (by decide) (by decide)
      (by decide) rfl rfl rfl rfl rfl rfl).1,
   (c5_path_breadcrumb.1 storeC5 7 rootC5 midC5 leafC5 (by decide) (by decide) (by decide)
      (by decide) rfl rfl rfl rfl rfl rfl).2,
   c5_path_breadcrumb.2 storeC5 7 9 (by decide)⟩

/-- C6: `deleteCategory` fails with `notFound` when the id does not resolve
for the tenant, fails with a products conflict carrying the exact product
count when it is positive, fails with a children conflict carrying the
exact child count when children exist, and otherwise removes the row and
returns the `{id, name}` tombstone; both conflict messages contain the
exact count. -/
theorem c6_delete_gating :
    (∀ (s : Store) (id tenantId : Nat),
      deleteCategory s id tenantId =
        match s.cats.find? (fun c => c.id == id && c.tenantId == tenantId) with
        | none => (.error .notFound, s)
        | some c =>
            if 0 < countProducts s.products id then
              (.error (.conflictProducts (countProducts s.products id)), s)
            else if 0 < (s.cats.filter (fun d => d.parentId == some id)).length then
              (.error (.conflictChildren (s.cats.filter (fun d => d.parentId == some id)).length),
               s)
            else
              (.ok { id := id, name := c.name },
               { s with cats := s.cats.filter (fun c => !(c.id == id && c.tenantId == tenantId)) }))
    ∧ (∀ n, ∃ pre post, (Err.conflictProducts n).message = pre ++ toString n ++ post)
    ∧ (∀ n, ∃ pre post, (Err.conflictChildren n).message = pre ++ toString n ++ post) := by
  refine ⟨?_, ?_, ?_⟩
  · intro s i tenantId
    rcases hfind : s.cats.find? (fun c => c.id == i && c.tenantId == tenantId) with _ | c
    · simp [deleteCategory, getCategoryById, hfind]
    · have hcid : c.id = i := by
        have := List.find?_some hfind
        rw [Bool.and_eq_true] at this
        simpa using this.1
      have hlen : ((sortByName (s.cats.filter (fun d => d.parentId == some i))).map
            (fun d => ({ id := d.id, name := d.name } : PathNode))).length
          = (s.cats.filter (fun d => d.parentId == some i)).length := by
        rw [List.length_map]
        exact (List.perm_insertionSort nameLe _).length_eq
      simp only [deleteCategory, getCategoryById, hfind, hcid, hlen]
  · intro n
    exact ⟨"Cannot delete category with ", " products. Move or delete products first.", rfl⟩
  · intro n
    exact ⟨"Cannot delete category with ", " subcategories. Delete subcategories first.", rfl⟩

/-- C8: mutations are atomic on validation failure: whenever `create`,
`update`, `move` or `delete` returns an error, the returned store is the
input store unchanged (no partial mutation). -/
theorem c8_failfast_atomic :
    (∀ (s : Store) (data : CreateCategoryInput) (tenantId : Nat) (e : Err),
      (createCategory s data tenantId).1 = .error e → (createCategory s data tenantId).2 = s)
    ∧ (∀ (s : Store) (id : Nat) (data : UpdateCategoryInput) (tenantId : Nat) (e : Err),
      (updateCategory s id data tenantId).1 = .error e →
        (updateCategory s id data tenantId).2 = s)
    ∧ (∀ (s : Store) (id : Nat) (newParentId : Option Nat) (tenantId : Nat) (e : Err),
      (moveCategory s id newParentId tenantId).1 = .error e →
        (moveCategory s id newParentId tenantId).2 = s)
    ∧ (∀ (s : Store) (id tenantId : Nat) (e : Err),
      (deleteCategory s id tenantId).1 = .error e → (deleteCategory s id tenantId).2 = s) := by
  have hupd : ∀ (s : Store) (id : Nat) (data : UpdateCategoryInput) (tenantId : Nat) (e : Err),
      (updateCategory s id data tenantId).1 = .error e →
        (updateCategory s id data tenantId).2 = s := by
    intro s i data tenantId e
    simp only [updateCategory]
    split
    · intro _; rfl
    · rename_i existing hok
      split
      · intro _; rfl
      · split
        · intro _; rfl
        · split
          · intro h; exact absurd h (by simp)
          · rename_i hnone
            intro _
            exfalso
            rcases hf : s.cats.find? (fun c => c.id == i && c.tenantId == tenantId) with _ | c₀
            · rw [getCategoryById, hf] at hok
              cases hok
            · have hc₀ : c₀ ∈ s.cats := List.mem_of_find?_eq_some hf
              have hp₀ : (c₀.id == i && c₀.tenantId == tenantId) = true := by
                have := List.find?_some hf
                simpa using this
              have hmem : applyPatch c₀ data ∈ s.cats.map (fun c =>
                  if c.id == i && c.tenantId == tenantId then applyPatch c data else c) := by
                have h0 := List.mem_map_of_mem (fun c =>
                  if c.id == i && c.tenantId == tenantId then applyPatch c data else c) hc₀
                simp only [hp₀, if_true] at h0
                exact h0
              have hpm : ((applyPatch c₀ data).id == i &&
                  (applyPatch c₀ data).tenantId == tenantId) = true := hp₀
              have := List.find?_eq_none.mp hnone _ hmem
              exact this hpm
  refine ⟨?_, hupd, ?_, ?_⟩
  · intro s data tenantId e
    simp only [createCategory]
    split
    · intro _; rfl
    · split
      · intro _; rfl
      · intro h; exact absurd h (by simp)
  · intro s i newParentId tenantId e h
    exact hupd s i _ tenantId e h
  · intro s i tenantId e
    simp only [deleteCategory]
    split
    · intro _; rfl
    · split
      · intro _; rfl
      · split
        · intro _; rfl
        · intro h; exact absurd h (by simp)

/-- Witness for C8: a failing delete on the empty store leaves it
unchanged. -/
theorem c8_failfast_atomic_witness :
    (deleteCategory storeC4 1 1).1 = .error .notFound ∧ (deleteCategory storeC4 1 1).2 = storeC4 :=
  ⟨rfl, c8_failfast_atomic.2.2.2 storeC4 1 1 .notFound rfl⟩

def storeC10 : Store :=
  { cats := [{ id := 1, tenantId := 1, name := "Electronics", description := none,
               parentId := none }],
    products := [], nextId := 2 }

def inputC10 : CreateCategoryInput :=
  { name := "electronics", description := none, parentId := none }

/-- C10: sibling-name uniqueness is case-sensitive. A create only reports
the duplicate-name conflict when a stored row carries the exact same name
string, so "electronics" is accepted alongside "Electronics" under the
same root group and tenant — while the list operation's `ilike` search
matches both names case-insensitively. -/
theorem c10_case_sensitive_uniqueness :
    (∀ (s : Store) (data : CreateCategoryInput) (tenantId : Nat),
      (createCategory s data tenantId).1 = .error .duplicateName →
        ∃ c ∈ s.cats, c.name = data.name)
    ∧ (createCategory storeC10 inputC10 1).1.isOk = true
    ∧ ((getCategories (createCategory storeC10 inputC10 1).2 1
          { search := some "ELECTRO", parentId := none }).map CatListItem.name
        = ["Electronics", "electronics"]) := by
  refine ⟨?_, by decide, by decide⟩
  intro s data tenantId h
  simp only [createCategory] at h
  split at h
  · rename_i e' heq
    have he : e' = Err.duplicateName := by simpa using h
    subst he
    split at heq
    · split at heq
      · cases heq
      · split at heq
        · cases heq
        · cases heq
    · cases heq
  · split at h
    · rename_i dc hdup
      have hmem : dc ∈ s.cats := List.mem_of_find?_eq_some hdup
      have hp := List.find?_some hdup
      simp only [Bool.and_eq_true, beq_iff_eq] at hp
      exact ⟨dc, hmem, hp.1.1⟩
    · simp at h

def inputC10dup : CreateCategoryInput :=
  { name := "Electronics", description := none, parentId := none }

/-- Witness for C10: an exact-name duplicate does conflict, and the
conflicting stored row carries the exact name. -/
theorem c10_case_sensitive_uniqueness_witness :
    (createCategory storeC10 inputC10dup 1).1 = .error .duplicateName ∧
    ∃ c ∈ storeC10.cats, c.name = inputC10dup.name :=
  ⟨rfl, c10_case_sensitive_uniqueness.1 storeC10 inputC10dup 1 rfl⟩

/-- Sibling-name uniqueness (spec invariant 3): no two rows of one tenant
share both parent group and name. -/
def SibUniq (s : Store) : Prop :=
  List.Pairwise (fun c1 c2 =>
    ¬(c1.tenantId = c2.tenantId ∧ c1.parentId = c2.parentId ∧ c1.name = c2.name)) s.cats

/-- `getCategoryById` only ever fails with `notFound`. -/
theorem getCategoryById_error {s : Store} {i tenantId : Nat} {e : Err}
    (h : getCategoryById s i tenantId = .error e) : e = .notFound := by
  rw [getCategoryById] at h
  split at h
  · injection h with h'
    exact h'.symm
  · simp at h

def storeC1 : Store :=
  { cats := [
      { id := 1, tenantId := 1, name := "Electronics", description := none, parentId := none },
      { id := 2, tenantId := 1, name := "Clothing", description := none, parentId := none },
      { id := 3, tenantId := 1, name := "Laptops", description := none, parentId := some 1 },
      { id := 4, tenantId := 1, name := "Laptops", description := none, parentId := some 2 }],
    products := [], nextId := 5 }

/-- C1 counterexample: with "Laptops" (id 4) already under "Clothing"
(id 2), moving "Laptops" (id 3) under id 2 SUCCEEDS — no Conflict — and
the resulting store has two same-tenant siblings named "Laptops" under
parent 2, so the move path does not preserve invariant 3. -/
theorem c1_sibling_move_counterexample :
    (moveCategory storeC1 3 (some 2) 1).1.isOk = true ∧
    ¬ SibUniq (moveCategory storeC1 3 (some 2) 1).2 := by
  constructor
  · decide
  · intro h
    rw [SibUniq] at h
    revert h
    decide

/-- C1 amended: sibling-name uniqueness is preserved by `createCategory`
(its duplicate check covers the insert), but `moveCategory` performs no
sibling-name check at all — it can never fail with the duplicate-name
conflict, and (per the counterexample) a successful move may break the
invariant. -/
theorem c1_sibling_uniqueness_amended :
    (∀ (s : Store) (data : CreateCategoryInput) (tenantId : Nat),
      SibUniq s → data.parentId ≠ some 0 →
      (createCategory s data tenantId).1.isOk = true →
      SibUniq (createCategory s data tenantId).2)
    ∧ (∀ (s : Store) (id : Nat) (newParentId : Option Nat) (tenantId : Nat),
      (moveCategory s id newParentId tenantId).1 ≠ .error .duplicateName) := by
  constructor
  · intro s data tenantId hu hnz
    simp only [createCategory]
    split
    · intro hok
      simp [Except.isOk, Except.toBool] at hok
    · split
      · intro hok
        simp [Except.isOk, Except.toBool] at hok
      · rename_i hdup
        intro _
        rw [SibUniq]
        show List.Pairwise _ (s.cats ++
          [{ id := s.nextId, tenantId := tenantId, name := data.name,
             description := data.description, parentId := data.parentId }])
        rw [List.pairwise_append]
        refine ⟨hu, by simp, ?_⟩
        intro a ha b hb
        rw [List.mem_singleton] at hb
        subst hb
        rintro ⟨ht, hp, hn⟩
        have hpred := List.find?_eq_none.mp hdup a ha
        apply hpred
        rcases hdp : data.parentId with _ | n
        · rw [hdp] at hp
          simp only [jsTruthy]
          simp [ht, hn, hp]
        · have hn0 : n ≠ 0 := fun h0 => hnz (by rw [hdp, h0])
          rw [hdp] at hp
          simp only [jsTruthy]
          simp [ht, hn, hp, hn0]
  · intro s i np tenantId h
    simp only [moveCategory, updateCategory] at h
    split at h
    · rename_i e' heq
      have := getCategoryById_error heq
      simp_all
    · split at h
      · rename_i e' heq
        split at heq
        · simp_all
        · simp_all
        · split at heq
          · simp_all
          · split at heq
            · simp_all
            · split at heq <;> simp_all
      · split at h <;> simp_all

/-- Witness for the amended C1: a concrete create that passes the
uniqueness check preserves the invariant, and a concrete move cannot
report a duplicate-name conflict. -/
theorem c1_sibling_uniqueness_amended_witness :
    SibUniq storeC10 ∧ (createCategory storeC10 inputC10 1).1.isOk = true ∧
    SibUniq (createCategory storeC10 inputC10 1).2 ∧
    (moveCategory storeC1 3 (some 2) 1).1 ≠ .error .duplicateName :=
  ⟨by rw [SibUniq]; decide, by decide,
   c1_sibling_uniqueness_amended.1 storeC10 inputC10 1 (by rw [SibUniq]; decide) (by decide)
     (by decide),
   c1_sibling_uniqueness_amended.2 storeC1 3 (some 2) 1⟩

section Termination

variable {s : Store} {tenantId : Nat} {D : Nat → Nat}

/-- The path-resolver loop completes (never exhausts its budget) as long
as every row the cursor can resolve to has rank below the remaining
budget. -/
theorem pathLoop_ok (hN : (s.cats.map Cat.id).Nodup)
    (hD : RankOK Cat.id Cat.parentId (tenantCats s tenantId) D) :
    ∀ (fuel : Nat) (cur : Option Nat) (acc : List PathNode),
      (∀ i c, cur = some i →
        s.cats.find? (fun x => x.id == i && x.tenantId == tenantId) = some c →
        D c.id < fuel) →
      (pathLoop s.cats tenantId cur fuel acc).isOk = true := by
  intro fuel
  induction fuel with
  | zero =>
      intro cur acc hbound
      rcases cur with _ | i
      · rfl
      · rcases hf : s.cats.find? (fun x => x.id == i && x.tenantId == tenantId) with _ | c
        · rw [pathLoop, hf]
          rfl
        · exact absurd (hbound i c rfl hf) (by omega)
  | succ fuel ih =>
      intro cur acc hbound
      rcases cur with _ | i
      · rfl
      · rcases hf : s.cats.find? (fun x => x.id == i && x.tenantId == tenantId) with _ | c
        · rw [pathLoop, hf]
          rfl
        · rw [pathLoop, hf]
          show (pathLoop s.cats tenantId c.parentId fuel _).isOk = true
          apply ih
          intro j c' hj hf'
          have hcmem : c ∈ tenantCats s tenantId := by
            rw [tenantCats]
            refine List.mem_filter_of_mem (List.mem_of_find?_eq_some hf) ?_
            have := List.find?_some hf
            rw [Bool.and_eq_true] at this
            exact this.2
          have hrank := hD c hcmem
          rw [hj] at hrank
          obtain ⟨rp, hrp, hrpid, hrk⟩ := hrank
          have hc' : c' = rp := by
            have h1 : c' ∈ s.cats := List.mem_of_find?_eq_some hf'
            have h2 : rp ∈ s.cats := List.mem_of_mem_filter hrp
            have h3 := List.find?_some hf'
            rw [Bool.and_eq_true] at h3
            refine List.inj_on_of_nodup_map hN h1 h2 ?_
            have : c'.id = j := by simpa using h3.1
            rw [this, hrpid]
          have := hbound i c rfl hf
          rw [hc']
          omega

/-- The cycle-guard loop completes as long as every row the cursor can
resolve to has rank strictly below the remaining budget minus one. -/
theorem wcrLoop_ok (hN : (s.cats.map Cat.id).Nodup)
    (hD : RankOK Cat.id Cat.parentId (tenantCats s tenantId) D) (categoryId : Nat) :
    ∀ (fuel : Nat) (cur : Option Nat),
      (∀ i, cur = some i → 1 ≤ fuel ∧
        ∀ c, s.cats.find? (fun x => x.id == i && x.tenantId == tenantId) = some c →
          D c.id + 1 < fuel) →
      (wcrLoop s.cats categoryId tenantId cur fuel).isOk = true := by
  intro fuel
  induction fuel with
  | zero =>
      intro cur hbound
      rcases cur with _ | i
      · rfl
      · exact absurd (hbound i rfl).1 (by omega)
  | succ fuel ih =>
      intro cur hbound
      rcases cur with _ | i
      · rfl
      · rw [wcrLoop]
        by_cases hcat : (i == categoryId) = true
        · rw [if_pos hcat]
          rfl
        · rw [if_neg hcat]
          rcases hf : s.cats.find? (fun x => x.id == i && x.tenantId == tenantId) with _ | c
          · rw [hf]
            show (wcrLoop s.cats categoryId tenantId none fuel).isOk = true
            apply ih
            intro j hj
            cases hj
          · rw [hf]
            show (wcrLoop s.cats categoryId tenantId (jsOrNull c.parentId) fuel).isOk = true
            apply ih
            intro j hj
            have hcmem : c ∈ tenantCats s tenantId := by
              rw [tenantCats]
              refine List.mem_filter_of_mem (List.mem_of_find?_eq_some hf) ?_
              have := List.find?_some hf
              rw [Bool.and_eq_true] at this
              exact this.2
            have hbc := (hbound i rfl).2 c hf
            rcases hcp : c.parentId with _ | p
            · rw [hcp] at hj
              simp [jsOrNull] at hj
            · rw [hcp] at hj
              have hrank := hD c hcmem
              rw [hcp] at hrank
              obtain ⟨rp, hrp, hrpid, hrk⟩ := hrank
              have hjp : j = p := by
                by_cases hp0 : (p == 0) = true
                · rw [jsOrNull, if_pos hp0] at hj
                  cases hj
                · rw [jsOrNull, if_neg hp0] at hj
                  injection hj with hj
                  exact hj.symm
              subst hjp
              constructor
              · omega
              · intro c' hf'
                have hc' : c' = rp := by
                  have h1 : c' ∈ s.cats := List.mem_of_find?_eq_some hf'
                  have h2 : rp ∈ s.cats := List.mem_of_mem_filter hrp
                  have h3 := List.find?_some hf'
                  rw [Bool.and_eq_true] at h3
                  refine List.inj_on_of_nodup_map hN h1 h2 ?_
                  have : c'.id = j := by simpa using h3.1
                  rw [this, hrpid]
                rw [hc']
                omega

end Termination

/-- C9: under acyclicity of the tenant's parent relation, the two
iterative ancestor walks always complete within the `|categories| + 1`
iteration budget (bounded by the tree depth), and `updateCategory` can
never report the non-termination marker. -/
theorem c9_walks_terminate (s : Store) (tenantId : Nat)
    (hN : (s.cats.map Cat.id).Nodup)
    (hf : ∃ D, RankOK Cat.id Cat.parentId (tenantCats s tenantId) D) :
    (∀ id, (getCategoryPath s id tenantId).isOk = true)
    ∧ (∀ categoryId newParentId,
        (wouldCreateCircularReference s categoryId newParentId tenantId).isOk = true)
    ∧ (∀ id data, (updateCategory s id data tenantId).1 ≠ .error .diverge) := by
  obtain ⟨D, hD⟩ := hf
  have htlen : (tenantCats s tenantId).length ≤ s.cats.length := by
    rw [tenantCats]
    exact List.length_filter_le _ _
  have htN : ((tenantCats s tenantId).map Cat.id).Nodup := by
    refine List.Nodup.sublist ?_ hN
    exact List.Sublist.map Cat.id (List.filter_sublist s.cats)
  have hboundAll : ∀ i c,
      s.cats.find? (fun x => x.id == i && x.tenantId == tenantId) = some c →
      D c.id < (tenantCats s tenantId).length := by
    intro i c hf'
    have hcmem : c ∈ tenantCats s tenantId := by
      rw [tenantCats]
      refine List.mem_filter_of_mem (List.mem_of_find?_eq_some hf') ?_
      have := List.find?_some hf'
      rw [Bool.and_eq_true] at this
      exact this.2
    exact rank_lt_length htN hD c hcmem
  have hpath : ∀ id, (getCategoryPath s id tenantId).isOk = true := by
    intro i
    rw [getCategoryPath]
    apply pathLoop_ok hN hD
    intro j c hj hf'
    have := hboundAll j c hf'
    omega
  have hwcr : ∀ categoryId newParentId,
      (wouldCreateCircularReference s categoryId newParentId tenantId).isOk = true := by
    intro categoryId newParentId
    rw [wouldCreateCircularReference]
    apply wcrLoop_ok hN hD
    intro j hj
    constructor
    · omega
    · intro c' hf''
      have := hboundAll j c' hf''
      omega
  refine ⟨hpath, hwcr, ?_⟩
  intro i data h
  simp only [updateCategory] at h
  split at h
  · rename_i e' heq
    have := getCategoryById_error heq
    simp_all
  · split at h
    · rename_i e' heq
      split at heq
      · simp_all
      · simp_all
      · rename_i x p hdp
        split at heq
        · simp_all
        · split at heq
          · simp_all
          · split at heq
            · rename_i y hwcreq
              have hcontra := hwcr i p
              rw [hwcreq] at hcontra
              simp [Except.isOk, Except.toBool] at hcontra
            · simp_all
            · simp_all
    · split at h
      · rename_i e' heq
        split at heq
        · simp_all
        · split at heq
          · split at heq
            · simp_all
            · simp_all
          · simp_all
      · split at h <;> simp_all

/-- Witness for C9 on the concrete three-row chain store. -/
theorem c9_walks_terminate_witness :
    (getCategoryPath storeC5 3 7).isOk = true ∧
    (wouldCreateCircularReference storeC5 3 1 7).isOk = true :=
  have h := c9_walks_terminate storeC5 7 (by decide)
    ⟨fun i => i - 1, (rankOKb_iff _ _ _ _).mp (by decide)⟩
  ⟨h.1 3, h.2.1 3 1⟩

/-! ### Tenant isolation of `getCategoryById` -/

def storeC2a : Store :=
  { cats := [{ id := 1, tenantId := 10, name := "Root", description := none, parentId := none }],
    products := [], nextId := 3 }

instance {ε α : Type} [DecidableEq ε] [DecidableEq α] : DecidableEq (Except ε α) := fun a b =>
  match a, b with
  | .error e, .error f =>
      if h : e = f then .isTrue (h ▸ rfl) else .isFalse (fun hh => h (Except.error.inj hh))
  | .ok x, .ok y =>
      if h : x = y then .isTrue (h ▸ rfl) else .isFalse (fun hh => h (Except.ok.inj hh))
  | .error _, .ok _ => .isFalse (fun hh => Except.noConfusion hh)
  | .ok _, .error _ => .isFalse (fun hh => Except.noConfusion hh)

def rowRootC2 : Cat :=
  { id := 1, tenantId := 10, name := "Root", description := none, parentId := none }

def rowIntruderC2 : Cat :=
  { id := 2, tenantId := 11, name := "Intruder", description := none, parentId := some 1 }

def storeC2b : Store :=
  { cats := [rowRootC2, rowIntruderC2], products := [], nextId := 3 }

/-- C2 counterexample: the two stores agree on every tenant-10 row, yet
`getCategoryById(1, 10)` differs between them — the `children` sub-query
has no tenant filter, so a foreign tenant's row with `parentId = 1` leaks
into the answer.  The claimed noninterference therefore fails for
arbitrary store states. -/
theorem c2_tenant_isolation_counterexample :
    storeC2a.cats.filter (fun c => c.tenantId == 10)
      = storeC2b.cats.filter (fun c => c.tenantId == 10)
    ∧ storeC2a.products.filter (fun p => p.tenantId == 10)
      = storeC2b.products.filter (fun p => p.tenantId == 10)
    ∧ getCategoryById storeC2a 1 10 ≠ getCategoryById storeC2b 1 10 := by
  refine ⟨rfl, rfl, ?_⟩
  decide

/-- The `parentName` augmentation of `getCategoryById` (id-only lookup, no
tenant filter, empty names collapsing to `null`). -/
def parentNameOf (s : Store) (c : Cat) : Option String :=
  if jsTruthy c.parentId then
    match s.cats.find? (fun d => d.id == c.parentId.getD 0) with
    | some p => if p.name == "" then none else some p.name
    | none => none
  else none

/-- The `children` sub-query of `getCategoryById` (id-only filter, no
tenant condition, name-ordered). -/
def childrenOf (s : Store) (i : Nat) : List PathNode :=
  (sortByName (s.cats.filter (fun d => d.parentId == some i))).map
    (fun d => { id := d.id, name := d.name })

theorem getCategoryById_eq (s : Store) (i tenantId : Nat) :
    getCategoryById s i tenantId
      = match s.cats.find? (fun c => c.id == i && c.tenantId == tenantId) with
        | none => .error .notFound
        | some c =>
            .ok { id := c.id, name := c.name, description := c.description,
                  parentId := c.parentId, productCount := countProducts s.products c.id,
                  parentName := parentNameOf s c, children := childrenOf s i } := by
  rw [getCategoryById]
  rcases hf : s.cats.find? (fun c => c.id == i && c.tenantId == tenantId) with _ | c <;> rfl

/-- Referential well-formedness of a store: globally distinct category
ids, parent links resolving within the owning tenant, and product
category references resolving within the product's tenant. -/
def WellFormed (s : Store) : Prop :=
  (s.cats.map Cat.id).Nodup
  ∧ (∀ c ∈ s.cats, ∀ p, c.parentId = some p →
      ∃ c' ∈ s.cats, c'.id = p ∧ c'.tenantId = c.tenantId)
  ∧ (∀ pr ∈ s.products, ∀ ci, pr.categoryId = some ci →
      ∃ c' ∈ s.cats, c'.id = ci ∧ c'.tenantId = pr.tenantId)

/-- Executable well-formedness check. -/
def wellFormedb (s : Store) : Bool :=
  decide ((s.cats.map Cat.id).Nodup)
  && s.cats.all (fun c => match c.parentId with
      | none => true
      | some p => s.cats.any (fun c' => c'.id == p && c'.tenantId == c.tenantId))
  && s.products.all (fun pr => match pr.categoryId with
      | none => true
      | some ci => s.cats.any (fun c' => c'.id == ci && c'.tenantId == pr.tenantId))

theorem wellFormedb_iff (s : Store) : wellFormedb s = true ↔ WellFormed s := by
  rw [wellFormedb, WellFormed]
  simp only [Bool.and_eq_true, List.all_eq_true, decide_eq_true_eq]
  constructor
  · rintro ⟨⟨hnd, hcat⟩, hprod⟩
    refine ⟨hnd, ?_, ?_⟩
    · intro c hc p hp
      have hb := hcat c hc
      rw [hp] at hb
      rw [List.any_eq_true] at hb
      obtain ⟨c', hc', hcond⟩ := hb
      rw [Bool.and_eq_true] at hcond
      exact ⟨c', hc', by simpa using hcond.1, by simpa using hcond.2⟩
    · intro pr hpr ci hci
      have hb := hprod pr hpr
      rw [hci] at hb
      rw [List.any_eq_true] at hb
      obtain ⟨c', hc', hcond⟩ := hb
      rw [Bool.and_eq_true] at hcond
      exact ⟨c', hc', by simpa using hcond.1, by simpa using hcond.2⟩
  · rintro ⟨hnd, hcat, hprod⟩
    refine ⟨⟨hnd, ?_⟩, ?_⟩
    · intro c hc
      rcases hp : c.parentId with _ | p
      · rfl
      · obtain ⟨c', hc', h1, h2⟩ := hcat c hc p hp
        rw [List.any_eq_true]
        exact ⟨c', hc', by simp [h1, h2]⟩
    · intro pr hpr
      rcases hci : pr.categoryId with _ | ci
      · rfl
      · obtain ⟨c', hc', h1, h2⟩ := hprod pr hpr ci hci
        rw [List.any_eq_true]
        exact ⟨c', hc', by simp [h1, h2]⟩

/-- A filter is unaffected by pre-restricting to a weaker filter it
implies (models the redundancy of a tenant clause under
well-formedness). -/
theorem filter_sub {α : Type} (l : List α) (p q : α → Bool)
    (h : ∀ x ∈ l, p x = true → q x = true) :
    l.filter p = (l.filter q).filter p := by
  rw [List.filter_filter]
  apply List.filter_congr
  intro x hx
  cases hp : p x
  · simp
  · simp [h x hx hp]

/-- C2 amended: `getCategoryById` is tenant-isolated for the main lookup
(`NotFound` for a foreign tenant's id), and on referentially well-formed
stores its entire result — `parentName` and `children` included — depends
only on the calling tenant's rows; without well-formedness the unfiltered
sub-queries can observe other tenants (see the counterexample). -/
theorem c2_tenant_isolation_amended :
    (∀ (s : Store) (i tA tB : Nat) (c : Cat),
      (s.cats.map Cat.id).Nodup → c ∈ s.cats → c.id = i → c.tenantId = tA → tA ≠ tB →
      getCategoryById s i tB = .error .notFound)
    ∧ (∀ (s1 s2 : Store) (i tA : Nat),
      WellFormed s1 → WellFormed s2 →
      s1.cats.filter (fun c => c.tenantId == tA) = s2.cats.filter (fun c => c.tenantId == tA) →
      s1.products.filter (fun p => p.tenantId == tA)
        = s2.products.filter (fun p => p.tenantId == tA) →
      getCategoryById s1 i tA = getCategoryById s2 i tA) := by
  constructor
  · intro s i tA tB c hN hc hid htA hne
    have hnone : s.cats.find? (fun x => x.id == i && x.tenantId == tB) = none := by
      rw [List.find?_eq_none]
      intro b hb
      rw [Bool.not_eq_true, Bool.and_eq_false_iff]
      by_cases hbid : b.id = i
      · right
        have : b = c := List.inj_on_of_nodup_map hN hb hc (hbid.trans hid.symm)
        subst this
        simp [htA, hne]
      · left
        simp [hbid]
    rw [getCategoryById_eq, hnone]
  · intro s1 s2 i tA hw1 hw2 hcats hprods
    obtain ⟨hN1, hpar1, hprod1⟩ := hw1
    obtain ⟨hN2, hpar2, hprod2⟩ := hw2
    have hm1 : s1.cats.find? (fun c => c.id == i && c.tenantId == tA)
        = (s1.cats.filter (fun c => c.tenantId == tA)).find? (fun c => c.id == i) :=
      find_and_filter _ _ _
    have hm2 : s2.cats.find? (fun c => c.id == i && c.tenantId == tA)
        = (s2.cats.filter (fun c => c.tenantId == tA)).find? (fun c => c.id == i) :=
      find_and_filter _ _ _
    have hmain : s1.cats.find? (fun c => c.id == i && c.tenantId == tA)
        = s2.cats.find? (fun c => c.id == i && c.tenantId == tA) := by
      rw [hm1, hm2, hcats]
    rw [getCategoryById_eq, getCategoryById_eq, hmain]
    rcases hf : s2.cats.find? (fun c => c.id == i && c.tenantId == tA) with _ | c
    · rw [hf]
    · rw [hf]
      have hc2 : c ∈ s2.cats := List.mem_of_find?_eq_some hf
      have hpred := List.find?_some hf
      rw [Bool.and_eq_true] at hpred
      have hcid : c.id = i := by simpa using hpred.1
      have hct : c.tenantId = tA := by simpa using hpred.2
      have hcf2 : c ∈ s2.cats.filter (fun x => x.tenantId == tA) :=
        List.mem_filter_of_mem hc2 (by simp [hct])
      have hcf1 : c ∈ s1.cats.filter (fun x => x.tenantId == tA) := by
        rw [hcats]
        exact hcf2
      have hc1 : c ∈ s1.cats := List.mem_of_mem_filter hcf1
      have hpc : countProducts s1.products c.id = countProducts s2.products c.id := by
        rw [countProducts, countProducts]
        have himp : ∀ (s : Store), WellFormed s → c ∈ s.cats →
            ∀ p ∈ s.products, (p.categoryId == some c.id && !p.deleted) = true →
              (p.tenantId == tA) = true := by
          intro s hw hcs p hp hcond
          rw [Bool.and_eq_true] at hcond
          have hci : p.categoryId = some c.id := by simpa using hcond.1
          obtain ⟨c', hc', h1, h2⟩ := hw.2.2 p hp c.id hci
          have : c' = c := List.inj_on_of_nodup_map hw.1 hc' hcs h1
          subst this
          simp [← h2, hct]
        rw [filter_sub s1.products _ (fun p => p.tenantId == tA)
              (himp s1 ⟨hN1, hpar1, hprod1⟩ hc1),
            filter_sub s2.products _ (fun p => p.tenantId == tA)
              (himp s2 ⟨hN2, hpar2, hprod2⟩ hc2),
            hprods]
      have hch : childrenOf s1 i = childrenOf s2 i := by
        rw [childrenOf, childrenOf]
        have himp : ∀ (s : Store), WellFormed s → c ∈ s.cats →
            ∀ d ∈ s.cats, (d.parentId == some i) = true → (d.tenantId == tA) = true := by
          intro s hw hcs d hd hcond
          have hdp : d.parentId = some i := by simpa using hcond
          obtain ⟨c', hc', h1, h2⟩ := hw.2.1 d hd i hdp
          have : c' = c := List.inj_on_of_nodup_map hw.1 hc' hcs (h1.trans hcid.symm)
          subst this
          simp [← h2, hct]
        rw [filter_sub s1.cats _ (fun x => x.tenantId == tA)
              (himp s1 ⟨hN1, hpar1, hprod1⟩ hc1),
            filter_sub s2.cats _ (fun x => x.tenantId == tA)
              (himp s2 ⟨hN2, hpar2, hprod2⟩ hc2),
            hcats]
      have hpn : parentNameOf s1 c = parentNameOf s2 c := by
        rw [parentNameOf, parentNameOf]
        by_cases ht : jsTruthy c.parentId = true
        · rw [if_pos ht, if_pos ht]
          rcases hcp : c.parentId with _ | pid
          · rw [hcp] at ht
            simp [jsTruthy] at ht
          · obtain ⟨rp, hrp1, hrpid, hrpt⟩ := hpar1 c hc1 pid hcp
            have hfind1 : s1.cats.find? (fun d => d.id == pid) = some rp := by
              apply find_unique hrp1 (by simp [hrpid])
              intro b hb hpb
              exact List.inj_on_of_nodup_map hN1 hb hrp1
                (by rw [hrpid]; simpa using hpb)
            have hrpf : rp ∈ s2.cats.filter (fun x => x.tenantId == tA) := by
              rw [← hcats]
              exact List.mem_filter_of_mem hrp1 (by simp [hrpt, hct])
            have hrp2 : rp ∈ s2.cats := List.mem_of_mem_filter hrpf
            have hfind2 : s2.cats.find? (fun d => d.id == pid) = some rp := by
              apply find_unique hrp2 (by simp [hrpid])
              intro b hb hpb
              exact List.inj_on_of_nodup_map hN2 hb hrp2
                (by rw [hrpid]; simpa using hpb)
            simp only [Option.getD_some]
            rw [hfind1, hfind2]
        · rw [if_neg ht, if_neg ht]
      show Except.ok
          ({ id := c.id, name := c.name, description := c.description, parentId := c.parentId,
             productCount := countProducts s1.products c.id, parentName := parentNameOf s1 c,
             children := childrenOf s1 i } : CategoryDetails)
        = Except.ok
            ({ id := c.id, name := c.name, description := c.description, parentId := c.parentId,
               productCount := countProducts s2.products c.id, parentName := parentNameOf s2 c,
               children := childrenOf s2 i } : CategoryDetails)
      rw [hpc, hch, hpn]

def rowOtherC2 : Cat :=
  { id := 2, tenantId := 11, name := "Other", description := none, parentId := none }

def storeC2d : Store :=
  { cats := [rowRootC2, rowOtherC2], products := [], nextId := 3 }

/-- Witness for the amended C2: a foreign-tenant lookup misses, and two
well-formed stores agreeing on tenant 10 agree on `getCategoryById`. -/
theorem c2_tenant_isolation_amended_witness :
    getCategoryById storeC2b 1 11 = .error .notFound ∧
    getCategoryById storeC2a 1 10 = getCategoryById storeC2d 1 10 :=
  ⟨c2_tenant_isolation_amended.1 storeC2b 1 10 11 rowRootC2 (by decide) (by decide) rfl rfl
     (by decide),
   c2_tenant_isolation_amended.2 storeC2a storeC2d 1 10
     ((wellFormedb_iff _).mp (by decide)) ((wellFormedb_iff _).mp (by decide))
     (by decide) (by decide)⟩
